import Mathlib

/-!
Verification of the ProTune DSP core against its specification.

This file is a shallow embedding, over the reals, of the four DSP
components of the repository (ScaleMapper, RetuneEngine, PsolaShifter,
PitchDetector).  C++ `float`/`double` values are modelled as `ℝ`,
machine `int` values as `ℤ` (the modelled quantities stay far from the
32-bit range), raw pointers plus a length as `List ℝ`.  Every definition
follows the corresponding source function statement by statement; the
comments name the source file and function each definition embeds.
-/

set_option maxHeartbeats 1000000
set_option linter.unusedTactic false
set_option linter.unnecessarySeqFocus false

noncomputable section

open Real

/-- C++ cast from a floating-point value to `int`: truncation toward zero. -/
def truncR (x : ℝ) : ℤ := if 0 ≤ x then ⌊x⌋ else -⌊-x⌋

/-- C++ `std::round`: round half away from zero (result used as an integer). -/
def roundCpp (x : ℝ) : ℤ := if 0 ≤ x then ⌊x + 1/2⌋ else -⌊-x + 1/2⌋

/-- `juce::jlimit (lower, upper, value)` on floating-point values:
`value < lower ? lower : (upper < value ? upper : value)`. -/
def jlimit (lo hi v : ℝ) : ℝ := if v < lo then lo else if hi < v then hi else v

/-- `juce::jlimit` on integer values. -/
def jlimitInt (lo hi v : ℤ) : ℤ := if v < lo then lo else if hi < v then hi else v

/-- `juce::jmap (v, sourceMin, sourceMax, targetMin, targetMax)`. -/
def jmap (v sMin sMax tMin tMax : ℝ) : ℝ := tMin + (tMax - tMin) * ((v - sMin) / (sMax - sMin))

/-- Write a block of samples into a circular buffer, advancing the write
position modulo the buffer size after each sample.  This is the input-copy
loop shared by `PsolaShifter::process` and `PitchDetector::process`. -/
def writeInput (buf : List ℝ) (pos : ℤ) (input : List ℝ) : List ℝ × ℤ :=
  input.foldl (fun acc x => (acc.1.set acc.2.toNat x, (acc.2 + 1) % (acc.1.length : ℤ))) (buf, pos)

namespace ScaleMapper

/-- `ScaleMapper::ScaleType` (ScaleMapper.h). -/
inductive ScaleType
  | Chromatic | Major | NaturalMinor | HarmonicMinor | MelodicMinor
  | Dorian | Phrygian | Lydian | Mixolydian | Locrian
  | WholeTone | Blues | MajorPentatonic | MinorPentatonic | Diminished
  | Custom
deriving DecidableEq, Fintype

/-- Scale interval tables (ScaleMapper.cpp, top of file). -/
def majorPattern : List ℤ := [0, 2, 4, 5, 7, 9, 11]

def naturalMinorPattern : List ℤ := [0, 2, 3, 5, 7, 8, 10]

def harmonicMinorPattern : List ℤ := [0, 2, 3, 5, 7, 8, 11]

def melodicMinorPattern : List ℤ := [0, 2, 3, 5, 7, 9, 11]

def dorianPattern : List ℤ := [0, 2, 3, 5, 7, 9, 10]

def phrygianPattern : List ℤ := [0, 1, 3, 5, 7, 8, 10]

def lydianPattern : List ℤ := [0, 2, 4, 6, 7, 9, 11]

def mixolydianPattern : List ℤ := [0, 2, 4, 5, 7, 9, 10]

def locrianPattern : List ℤ := [0, 1, 3, 5, 6, 8, 10]

def wholeTonePattern : List ℤ := [0, 2, 4, 6, 8, 10]

def bluesPattern : List ℤ := [0, 3, 5, 6, 7, 10]

def majorPentatonicPattern : List ℤ := [0, 2, 4, 7, 9]

def minorPentatonicPattern : List ℤ := [0, 3, 5, 7, 10]

def diminishedPattern : List ℤ := [0, 2, 3, 5, 6, 8, 9, 11]

/-- The `addPattern` lambda of `ScaleMapper::getMaskForScale`:
`mask |= 1u << ((root + interval) % 12)` for each interval.  The C++ `%` is
truncated division (`Int.tmod`); for the supported roots 0..11 the operand is
non-negative, so `toNat` is exact there. -/
def addPattern (root : ℤ) (pattern : List ℤ) : ℕ :=
  pattern.foldl (fun mask interval => mask ||| (1 <<< ((root + interval).tmod 12).toNat)) 0

/-- `ScaleMapper::getMaskForScale` (ScaleMapper.cpp).  `Chromatic` and
`Custom` both return the full 12-bit mask 0x0FFF. -/
def getMaskForScale (type : ScaleType) (root : ℤ) : ℕ :=
  match type with
  | .Chromatic => 0x0FFF
  | .Major => addPattern root majorPattern
  | .NaturalMinor => addPattern root naturalMinorPattern
  | .HarmonicMinor => addPattern root harmonicMinorPattern
  | .MelodicMinor => addPattern root melodicMinorPattern
  | .Dorian => addPattern root dorianPattern
  | .Phrygian => addPattern root phrygianPattern
  | .Lydian => addPattern root lydianPattern
  | .Mixolydian => addPattern root mixolydianPattern
  | .Locrian => addPattern root locrianPattern
  | .WholeTone => addPattern root wholeTonePattern
  | .Blues => addPattern root bluesPattern
  | .MajorPentatonic => addPattern root majorPentatonicPattern
  | .MinorPentatonic => addPattern root minorPentatonicPattern
  | .Diminished => addPattern root diminishedPattern
  | .Custom => 0x0FFF

/-- `ScaleMapper::Settings` (ScaleMapper.h), with the source's default values. -/
structure Settings where
  type : ScaleType := .Chromatic
  root : ℤ := 0
  customMask : ℕ := 0x0FFF
  transpose : ℤ := 0
  detune : ℝ := 0

/-- `ScaleMapper::MapResult` (ScaleMapper.h). -/
structure MapResult where
  targetMidi : ℝ := 0
  targetFrequency : ℝ := 0
  targetNoteNumber : ℤ := 0
  deviationCents : ℝ := 0

/-- The mapper's mutable state: its settings and the active pitch-class mask. -/
structure MapperState where
  settings : Settings
  currentMask : ℕ

/-- The `ScaleMapper` constructor: `currentMask = getMaskForScale (settings.type, settings.root)`
with default settings. -/
def initState : MapperState :=
  { settings := {}, currentMask := getMaskForScale .Chromatic 0 }

/-- `ScaleMapper::setSettings`: recompute the mask (the custom mask is
truncated to 12 bits) and fall back to the chromatic mask 0x0FFF when the
computed mask is zero. -/
def setSettings (s : Settings) : MapperState :=
  let mask := if s.type = .Custom then s.customMask &&& 0x0FFF else getMaskForScale s.type s.root
  { settings := s, currentMask := if mask = 0 then 0x0FFF else mask }

/-- The pitch-class computation of `ScaleMapper::snapToScale`:
`((candidate % 12) + 12) % 12` with C++ truncated `%`. -/
def pitchClassOf (c : ℤ) : ℕ := (((c.tmod 12) + 12).tmod 12).toNat

/-- `std::numeric_limits<float>::max()`, the initial best-distance sentinel of
`ScaleMapper::snapToScale`. -/
def fltMax : ℝ := (2 ^ 24 - 1) * 2 ^ 104

/-- The candidate offsets scanned by `ScaleMapper::snapToScale`
(`for delta = -12 .. 12`). -/
def deltas : List ℤ :=
  [-12, -11, -10, -9, -8, -7, -6, -5, -4, -3, -2, -1, 0,
   1, 2, 3, 4, 5, 6, 7, 8, 9, 10, 11, 12]

/-- One iteration of the candidate loop in `ScaleMapper::snapToScale`:
keep the in-mask candidate of strictly smallest distance to `midiNote`. -/
def snapStep (mask : ℕ) (midiNote : ℝ) (rounded : ℤ) (acc : ℤ × ℝ) (delta : ℤ) : ℤ × ℝ :=
  let candidate := rounded + delta
  if mask &&& (1 <<< pitchClassOf candidate) ≠ 0 then
    let distance := |(candidate : ℝ) - midiNote|
    if distance < acc.2 then (candidate, distance) else acc
  else acc

/-- `ScaleMapper::snapToScale` (ScaleMapper.cpp): nearest in-mask MIDI note
within ±12 semitones of the rounded input note. -/
def snapToScale (mask : ℕ) (midiNote : ℝ) : ℤ :=
  let rounded := roundCpp midiNote
  (deltas.foldl (snapStep mask midiNote rounded) (rounded, fltMax)).1

/-- `ScaleMapper::frequencyToMidi`: `69 + 12*log2(f/440)`, 0 for `f <= 0`. -/
def frequencyToMidi (frequency : ℝ) : ℝ :=
  if frequency ≤ 0 then 0 else 69 + 12 * Real.logb 2 (frequency / 440)

/-- `ScaleMapper::midiToFrequency`: `440 * 2^((m - 69)/12)`. -/
def midiToFrequency (midiNote : ℝ) : ℝ := 440 * (2 : ℝ) ^ ((midiNote - 69) / 12)

/-- `ScaleMapper::map` (ScaleMapper.cpp): returns the default `MapResult` on
invalid input, otherwise converts to a MIDI note (the MIDI override takes
precedence), applies transpose, snaps to the scale and applies detune. -/
def map (st : MapperState) (detectedFrequency : ℝ) (midiOverride : ℤ) : MapResult :=
  if detectedFrequency ≤ 0 ∧ midiOverride < 0 then {} else
  let inputMidi0 := if 0 ≤ midiOverride then (midiOverride : ℝ) else frequencyToMidi detectedFrequency
  let inputMidi := inputMidi0 + (st.settings.transpose : ℝ)
  let snappedNote := snapToScale st.currentMask inputMidi
  let targetMidi := (snappedNote : ℝ) + st.settings.detune / 100
  { targetMidi := targetMidi
    targetFrequency := midiToFrequency targetMidi
    targetNoteNumber := snappedNote
    deviationCents := (inputMidi - (snappedNote : ℝ)) * 100 }

end ScaleMapper

namespace PCE

/-- `positiveModulo` (PitchCorrectionEngine.cpp): truncated `%` followed by a
sign fix-up. -/
def positiveModulo (value modulo : ℤ) : ℤ :=
  let remainder := value.tmod modulo
  if remainder < 0 then remainder + modulo else remainder

/-- `PitchCorrectionEngine::Parameters::ScaleSettings::patternToMask`. -/
def patternToMask (root : ℤ) (pattern : List ℤ) : ℕ :=
  pattern.foldl (fun mask interval => mask ||| (1 <<< (positiveModulo (root + interval) 12).toNat)) 0

/-- `PitchCorrectionEngine::Parameters::ScaleSettings::maskForType`
(PitchCorrectionEngine.cpp).  The scale-type enumeration there has exactly
the constructors of `ScaleMapper.ScaleType`, so that type is reused.  Unlike
`ScaleMapper::getMaskForScale`, the `Custom` case returns the caller-supplied
mask truncated to 12 bits. -/
def maskForType (type : ScaleMapper.ScaleType) (root : ℤ) (customMask : ℕ) : ℕ :=
  match type with
  | .Chromatic => 0x0FFF
  | .Major => patternToMask root [0, 2, 4, 5, 7, 9, 11]
  | .NaturalMinor => patternToMask root [0, 2, 3, 5, 7, 8, 10]
  | .HarmonicMinor => patternToMask root [0, 2, 3, 5, 7, 8, 11]
  | .MelodicMinor => patternToMask root [0, 2, 3, 5, 7, 9, 11]
  | .Dorian => patternToMask root [0, 2, 3, 5, 7, 9, 10]
  | .Phrygian => patternToMask root [0, 1, 3, 5, 7, 8, 10]
  | .Lydian => patternToMask root [0, 2, 4, 6, 7, 9, 11]
  | .Mixolydian => patternToMask root [0, 2, 4, 5, 7, 9, 10]
  | .Locrian => patternToMask root [0, 1, 3, 5, 6, 8, 10]
  | .WholeTone => patternToMask root [0, 2, 4, 6, 8, 10]
  | .Blues => patternToMask root [0, 3, 5, 6, 7, 10]
  | .MajorPentatonic => patternToMask root [0, 2, 4, 7, 9]
  | .MinorPentatonic => patternToMask root [0, 3, 5, 7, 10]
  | .Diminished => patternToMask root [0, 2, 3, 5, 6, 8, 9, 11]
  | .Custom => customMask &&& 0x0FFF

end PCE

namespace RetuneEngine

/-- `juce::SmoothedValue<float>` with linear smoothing, used by
`RetuneEngine` for `ratioSmoother`/`targetSmoother`. -/
structure Smoother where
  currentValue : ℝ
  target : ℝ
  step : ℝ
  countdown : ℤ
  stepsToTarget : ℤ

/-- A default-constructed `juce::SmoothedValue<float>` (value 0, no ramp). -/
def initSmoother : Smoother :=
  { currentValue := 0, target := 0, step := 0, countdown := 0, stepsToTarget := 0 }

/-- `SmoothedValue::setCurrentAndTargetValue`: jump both the current and the
target value; the ramp countdown is cleared. -/
def Smoother.setCurrentAndTargetValue (s : Smoother) (v : ℝ) : Smoother :=
  { s with currentValue := v, target := v, countdown := 0 }

/-- `SmoothedValue::reset (numSteps)`: store the ramp length and snap the
current value to the pending target. -/
def Smoother.resetSteps (s : Smoother) (numSteps : ℤ) : Smoother :=
  ({ s with stepsToTarget := numSteps }).setCurrentAndTargetValue s.target

/-- `SmoothedValue::reset (sampleRate, rampLengthInSeconds)`:
`numSteps = floor (rampLengthInSeconds * sampleRate)`. -/
def Smoother.reset (s : Smoother) (sampleRate rampLengthSeconds : ℝ) : Smoother :=
  s.resetSteps ⌊rampLengthSeconds * sampleRate⌋

/-- `SmoothedValue::setTargetValue` with linear `setStepSize`:
`step = (target - currentValue) / countdown`. -/
def Smoother.setTargetValue (s : Smoother) (v : ℝ) : Smoother :=
  if v = s.target then s
  else if s.stepsToTarget ≤ 0 then s.setCurrentAndTargetValue v
  else { s with target := v, countdown := s.stepsToTarget,
                step := (v - s.currentValue) / (s.stepsToTarget : ℝ) }

/-- `SmoothedValue::skip (numSamples)`: jump to the target when the ramp ends
within the block, otherwise advance linearly. -/
def Smoother.skip (s : Smoother) (numSamples : ℤ) : Smoother :=
  if s.countdown ≤ numSamples then s.setCurrentAndTargetValue s.target
  else { s with currentValue := s.currentValue + s.step * (numSamples : ℝ),
                countdown := s.countdown - numSamples }

/-- `RetuneEngine::Settings` (RetuneEngine.h), with the source defaults. -/
structure RSettings where
  retuneSpeedMs : ℝ := 20
  vibratoTracking : ℝ := 0.5
  humanize : ℝ := 0
  noteTransition : ℝ := 0.2

/-- The complete `RetuneEngine` state (RetuneEngine.h private members). -/
structure REState where
  settings : RSettings
  currentSampleRate : ℝ
  ratioSmoother : Smoother
  targetSmoother : Smoother
  lastDetectedFrequency : ℝ
  lastTargetFrequency : ℝ
  lastRatio : ℝ
  lastTargetNote : ℤ
  vibratoPhase : ℝ
  detectedVibratoRate : ℝ
  detectedVibratoDepth : ℝ
  humanizePhase : ℝ

/-- `RetuneEngine::frequencyToMidi`: `69 + 12*log2(f/440)`, 0 for `f <= 0`. -/
def frequencyToMidi (freq : ℝ) : ℝ :=
  if freq ≤ 0 then 0 else 69 + 12 * Real.logb 2 (freq / 440)

/-- `RetuneEngine::reset` (RetuneEngine.cpp). -/
def reset (st : REState) : REState :=
  { st with ratioSmoother := st.ratioSmoother.setCurrentAndTargetValue 1
            targetSmoother := st.targetSmoother.setCurrentAndTargetValue 0
            lastDetectedFrequency := 0
            lastTargetFrequency := 0
            lastRatio := 1
            lastTargetNote := -1
            vibratoPhase := 0
            detectedVibratoRate := 0
            detectedVibratoDepth := 0
            humanizePhase := 0 }

/-- The `RetuneEngine` default-constructed state (members' default values in
RetuneEngine.h). -/
def initState : REState :=
  { settings := {}
    currentSampleRate := 44100
    ratioSmoother := initSmoother
    targetSmoother := initSmoother
    lastDetectedFrequency := 0
    lastTargetFrequency := 0
    lastRatio := 1
    lastTargetNote := -1
    vibratoPhase := 0
    detectedVibratoRate := 0
    detectedVibratoDepth := 0
    humanizePhase := 0 }

/-- `RetuneEngine::prepare` (RetuneEngine.cpp): install the sample rate,
initialise both smoothers, then `reset()`. -/
def prepare (st : REState) (sampleRate : ℝ) : REState :=
  let st1 := { st with currentSampleRate := sampleRate }
  let retuneTimeSeconds := st1.settings.retuneSpeedMs / 1000
  let sm := (st1.ratioSmoother.reset sampleRate (max 0.001 retuneTimeSeconds)).setCurrentAndTargetValue 1
  let tm := (st1.targetSmoother.reset sampleRate 0.02).setCurrentAndTargetValue 0
  reset { st1 with ratioSmoother := sm, targetSmoother := tm }

/-- `RetuneEngine::setSettings`: replace the settings and re-arm the ratio
smoother with the new retune-speed time constant. -/
def setSettings (st : REState) (s : RSettings) : REState :=
  let st1 := { st with settings := s }
  { st1 with ratioSmoother :=
      st1.ratioSmoother.reset st1.currentSampleRate (max 0.001 (s.retuneSpeedMs / 1000)) }

/-- `RetuneEngine::applyVibratoTracking` (RetuneEngine.cpp): blend the
sub-semitone deviation of the detected note back into the target. -/
def applyVibratoTracking (st : REState) (detectedFreq targetFreq : ℝ) : ℝ :=
  if st.settings.vibratoTracking ≤ 0.01 then targetFreq
  else if 0.99 ≤ st.settings.vibratoTracking then
    let detectedMidi := frequencyToMidi detectedFreq
    let deviation := detectedMidi - (roundCpp detectedMidi : ℝ)
    targetFreq * (2 : ℝ) ^ (deviation / 12)
  else
    let detectedMidi := frequencyToMidi detectedFreq
    let deviation := detectedMidi - (roundCpp detectedMidi : ℝ)
    let scaledDeviation := deviation * st.settings.vibratoTracking
    targetFreq * (2 : ℝ) ^ (scaledDeviation / 12)

/-- `RetuneEngine::applyHumanize` (RetuneEngine.cpp).  The one draw of
`random.nextFloat()` made per call is passed in as `rnd ∈ [0, 1)`. -/
def applyHumanize (st : REState) (ratio rnd : ℝ) : ℝ × REState :=
  if st.settings.humanize ≤ 0.01 then (ratio, st)
  else
    let phase0 := st.humanizePhase + 1.5 / st.currentSampleRate * 256
    let phase := if 2 * π < phase0 then phase0 - 2 * π else phase0
    let lfo := Real.sin phase
    let noise := (rnd - 0.5) * 0.002
    let modulation := (lfo * 0.005 + noise) * st.settings.humanize
    let modRatio := (2 : ℝ) ^ (modulation / 12)
    (ratio * modRatio, { st with humanizePhase := phase })

/-- `RetuneEngine::detectNoteTransition` (RetuneEngine.cpp): 1 when the
rounded target note changed since the previous call, 0 otherwise. -/
def detectNoteTransition (st : REState) (targetFreq : ℝ) : ℝ × REState :=
  if targetFreq ≤ 0 then (0, st)
  else
    let targetNote := roundCpp (frequencyToMidi targetFreq)
    if st.lastTargetNote < 0 then (0, { st with lastTargetNote := targetNote })
    else
      let noteDelta := |targetNote - st.lastTargetNote|
      let st1 := { st with lastTargetNote := targetNote }
      if 1 ≤ noteDelta then (1, st1) else (0, st1)

/-- `RetuneEngine::process` (RetuneEngine.cpp), returning the smoothed ratio
together with the updated engine state. -/
def process (st : REState) (detectedFrequency targetFrequency : ℝ) (numSamples : ℤ)
    (rnd : ℝ) : ℝ × REState :=
  if detectedFrequency ≤ 0 ∨ targetFrequency ≤ 0 then
    let st1 := if 0 < numSamples
      then { st with ratioSmoother := st.ratioSmoother.skip numSamples } else st
    (st1.lastRatio, st1)
  else
    let tr := detectNoteTransition st targetFrequency
    let transitionFactor := tr.1
    let st1 := tr.2
    let adjustedTarget := applyVibratoTracking st1 detectedFrequency targetFrequency
    let ratio0 := adjustedTarget / detectedFrequency
    let ratio1 := jlimit 0.5 2 ratio0
    let hz := if 0 < st1.settings.humanize then applyHumanize st1 ratio1 rnd else (ratio1, st1)
    let ratio2 := hz.1
    let st2 := hz.2
    let sm1 :=
      if 0.5 < transitionFactor then
        st2.ratioSmoother.reset st2.currentSampleRate (jmap st2.settings.noteTransition 0 1 0.005 0.15)
      else
        st2.ratioSmoother.reset st2.currentSampleRate (max 0.001 (st2.settings.retuneSpeedMs / 1000))
    let sm2 := sm1.setTargetValue ratio2
    let sm3 := sm2.skip numSamples
    (sm3.currentValue,
      { st2 with ratioSmoother := sm3
                 lastRatio := sm3.currentValue
                 lastDetectedFrequency := detectedFrequency
                 lastTargetFrequency := targetFrequency })

/-- Lower endpoint of the amended ratio interval: 0.5 shrunk by the largest
possible humanize modulation factor (|modulation| ≤ 0.006 semitones, i.e.
2^(0.006/12) = 2^(1/2000)). -/
def humLo : ℝ := (1/2) * (2 : ℝ) ^ (-(1 : ℝ)/2000)

/-- Upper endpoint of the amended ratio interval: 2.0 widened by the largest
possible humanize modulation factor. -/
def humHi : ℝ := 2 * (2 : ℝ) ^ ((1 : ℝ)/2000)

/-- The ratio smoother's states reachable at block boundaries: non-negative
countdown, current value and target inside `[lo, hi]`, and a consistent
linear ramp (the current value reaches the target after `countdown` steps). -/
def SmootherInv (lo hi : ℝ) (s : Smoother) : Prop :=
  0 ≤ s.countdown ∧
  lo ≤ s.currentValue ∧ s.currentValue ≤ hi ∧
  lo ≤ s.target ∧ s.target ≤ hi ∧
  (s.countdown ≠ 0 → s.currentValue + s.step * (s.countdown : ℝ) = s.target)

/-- The engine states reachable at block boundaries: smoother invariant plus
the held last ratio inside `[lo, hi]`. -/
def REInv (lo hi : ℝ) (st : REState) : Prop :=
  SmootherInv lo hi st.ratioSmoother ∧ lo ≤ st.lastRatio ∧ st.lastRatio ≤ hi

end RetuneEngine

namespace Psola

/-- `PsolaShifter::Grain` (PsolaShifter.h). -/
structure Grain where
  samples : List ℝ
  window : List ℝ
  centerPosition : ℤ
  outputPosition : ℤ
  period : ℝ

/-- The `PsolaShifter` state (PsolaShifter.h private members used by the
final implementation; the unused `outputAccum`/`inputReadPos` scratch members
carry no behaviour and are omitted). -/
structure State where
  currentSampleRate : ℝ
  maxPeriodSamples : ℤ
  minPeriodSamples : ℤ
  inputBuffer : List ℝ
  inputWritePos : ℤ
  latencySamples : ℤ
  activeGrains : List Grain
  lastPeriod : ℝ
  grainPhase : ℝ
  inputReadPosition : ℝ
  totalInputSamples : ℤ
  totalOutputSamples : ℤ

/-- The default-constructed `PsolaShifter` (member initialisers in
PsolaShifter.h): empty buffers, zero tracking state, 44100 Hz. -/
def initState : State :=
  { currentSampleRate := 44100
    maxPeriodSamples := 0
    minPeriodSamples := 0
    inputBuffer := []
    inputWritePos := 0
    latencySamples := 0
    activeGrains := []
    lastPeriod := 0
    grainPhase := 0
    inputReadPosition := 0
    totalInputSamples := 0
    totalOutputSamples := 0 }

/-- `PsolaShifter::reset` (PsolaShifter.cpp). -/
def reset (s : State) : State :=
  { s with inputBuffer := List.replicate s.inputBuffer.length 0
           inputWritePos := 0
           activeGrains := []
           lastPeriod := 0
           grainPhase := 0
           inputReadPosition := -1
           totalInputSamples := 0
           totalOutputSamples := 0 }

/-- `PsolaShifter::prepare` (PsolaShifter.cpp): period range 50..1000 Hz,
input buffer of `maxPeriodSamples*8 + maxBlockSize` samples, reported latency
`maxPeriodSamples * 2`, then `reset()`. -/
def prepare (s : State) (sampleRate : ℝ) (maxBlockSize : ℤ) : State :=
  let maxP := truncR (sampleRate / 50)
  let minP := truncR (sampleRate / 1000)
  let inputBufferSize := maxP * 8 + maxBlockSize
  reset { s with currentSampleRate := sampleRate
                 maxPeriodSamples := maxP
                 minPeriodSamples := minP
                 inputBuffer := List.replicate inputBufferSize.toNat 0
                 latencySamples := maxP * 2 }

/-- `PsolaShifter::getHannWindow` (PsolaShifter.cpp). -/
def getHannWindow (index size : ℤ) : ℝ :=
  if size ≤ 1 then 1
  else 0.5 * (1 - Real.cos (2 * π * (index : ℝ) / ((size : ℝ) - 1)))

/-- `PsolaShifter::alignToPeak` (PsolaShifter.cpp): scan
`max(center-radius, minCenter) .. min(center+radius, maxCenter)` for the
sample of strictly largest magnitude (ties keep the earlier position). -/
def alignToPeak (buf : List ℝ) (center searchRadius minCenter maxCenter : ℤ) : ℤ :=
  if buf.length = 0 then center
  else
    let bufSize : ℤ := (buf.length : ℤ)
    let start := max (center - searchRadius) minCenter
    let stop := min (center + searchRadius) maxCenter
    let positions := (List.range (stop + 1 - start).toNat).map (fun (i : ℕ) => start + (i : ℤ))
    (positions.foldl
      (fun (acc : ℤ × ℝ) (pos : ℤ) =>
        let sample := buf.getD (pos.emod bufSize).toNat 0
        let magnitude := |sample|
        if acc.2 < magnitude then (pos, magnitude) else acc)
      (center, -1)).1

/-- The grain construction inside `PsolaShifter::process`: `grainSize`
windowed samples read circularly starting at `inputStart`. -/
def makeGrain (buf : List ℝ) (inputStart grainSize outputPosition center : ℤ)
    (period : ℝ) : Grain :=
  { samples := (List.range grainSize.toNat).map (fun (i : ℕ) =>
      buf.getD (((inputStart + (i : ℤ)).emod (buf.length : ℤ)).toNat) 0
        * getHannWindow (i : ℤ) grainSize)
    window := (List.range grainSize.toNat).map (fun (i : ℕ) => getHannWindow (i : ℤ) grainSize)
    centerPosition := center
    outputPosition := outputPosition
    period := period }

/-- The per-block constants of the synthesis loop in `PsolaShifter::process`. -/
structure LoopParams where
  buf : List ℝ
  phaseIncrement : ℝ
  period : ℝ
  periodInt : ℤ
  grainSize : ℤ
  totalInputSamples : ℤ
  outputBlockStart : ℤ

/-- The loop-carried state of the synthesis loop in `PsolaShifter::process`
(outputs are accumulated in reverse). -/
structure LoopAcc where
  outRev : List ℝ
  grainPhase : ℝ
  inputReadPosition : ℝ
  activeGrains : List Grain

/-- The grain-spawning `while (grainPhase >= 1)` body of
`PsolaShifter::process`, for one wrap: the empty list when the bound checks
fail or history is insufficient, otherwise the freshly extracted grain. -/
def spawnOne (p : LoopParams) (irp : ℝ) (outIdx : ℤ) : List Grain :=
  let oldestAvailable := p.totalInputSamples - (p.buf.length : ℤ)
  let minCenter := oldestAvailable + p.grainSize / 2
  let maxCenter := p.totalInputSamples - p.grainSize / 2
  if maxCenter < minCenter then []
  else
    let inputCenter0 := truncR (irp + 0.5)
    let inputCenter1 := jlimitInt minCenter maxCenter inputCenter0
    let inputCenter := alignToPeak p.buf inputCenter1 (max 1 (p.periodInt / 2)) minCenter maxCenter
    let inputStart := inputCenter - p.grainSize / 2
    if oldestAvailable ≤ inputStart then
      [makeGrain p.buf inputStart p.grainSize outIdx inputCenter p.period]
    else []

/-- One output sample of the synthesis loop in `PsolaShifter::process`:
advance the read position and the grain phase, spawn one (identical) grain
per phase wrap, then overlap-add all active grains with window-sum
normalisation guarded at 1e-6. -/
def processSample (p : LoopParams) (acc : LoopAcc) (outSample : ℕ) : LoopAcc :=
  let irp := acc.inputReadPosition + 1
  let gp := acc.grainPhase + p.phaseIncrement
  let wraps := (⌊gp⌋).toNat
  let gp1 := gp - (wraps : ℝ)
  let outIdx := p.outputBlockStart + (outSample : ℤ)
  let newGrains := (List.range wraps).foldl (fun gs _ => gs ++ spawnOne p irp outIdx) []
  let grains := acc.activeGrains ++ newGrains
  let sums := grains.foldl
    (fun (s : ℝ × ℝ) g =>
      let grainLen : ℤ := (g.samples.length : ℤ)
      let grainStart := g.outputPosition - grainLen / 2
      let relIdx := outIdx - grainStart
      if 0 ≤ relIdx ∧ relIdx < grainLen then
        (s.1 + g.samples.getD relIdx.toNat 0, s.2 + g.window.getD relIdx.toNat 0)
      else s)
    (0, 0)
  let outValue := if 1.0e-6 < sums.2 then sums.1 / sums.2 else sums.1
  { outRev := outValue :: acc.outRev
    grainPhase := gp1
    inputReadPosition := irp
    activeGrains := grains }

/-- The grain-eviction loop at the end of `PsolaShifter::process`: pop
front grains whose window has fully passed the end of this block. -/
def cleanupGrains (blockEnd : ℤ) : List Grain → List Grain
  | [] => []
  | g :: rest =>
    if g.outputPosition + (g.samples.length : ℤ) / 2 ≤ blockEnd
      then cleanupGrains blockEnd rest
      else g :: rest

/-- `PsolaShifter::process` (PsolaShifter.cpp).  The non-null input/output
buffers are a `List ℝ` (`numSamples = input.length`); the function returns
the produced output block together with the updated state. -/
def process (s : State) (input : List ℝ) (pitchRatio detectedPeriod confidence : ℝ) :
    List ℝ × State :=
  let numSamples : ℤ := (input.length : ℤ)
  if numSamples ≤ 0 then ([], s)
  else
    let pr := jlimit 0.5 2 pitchRatio
    let wr := writeInput s.inputBuffer s.inputWritePos input
    let s1 := { s with inputBuffer := wr.1, inputWritePos := wr.2,
                       totalInputSamples := s.totalInputSamples + numSamples }
    if detectedPeriod ≤ 0 ∨ confidence < 0.2 then
      (input, { s1 with lastPeriod := 0
                        grainPhase := 0
                        inputReadPosition := -1
                        activeGrains := []
                        totalOutputSamples := s1.totalOutputSamples + numSamples })
    else
      let period0 := jlimit (s1.minPeriodSamples : ℝ) (s1.maxPeriodSamples : ℝ) detectedPeriod
      let lastPeriod1 := if s1.lastPeriod ≤ 0 then period0
        else s1.lastPeriod * 0.9 + period0 * 0.1
      let period := lastPeriod1
      let periodInt := max s1.minPeriodSamples (truncR (period + 0.5))
      let grainSize := periodInt * 2
      let outputHop := period / pr
      let phaseIncrement := 1 / outputHop
      let gp0 := if s1.inputReadPosition < 0 then (1 : ℝ) else s1.grainPhase
      let irp0 := if s1.inputReadPosition < 0
        then ((s1.totalInputSamples - numSamples : ℤ) : ℝ) else s1.inputReadPosition
      let p : LoopParams :=
        { buf := s1.inputBuffer
          phaseIncrement := phaseIncrement
          period := period
          periodInt := periodInt
          grainSize := grainSize
          totalInputSamples := s1.totalInputSamples
          outputBlockStart := s1.totalOutputSamples }
      let fin := (List.range input.length).foldl (processSample p)
        { outRev := [], grainPhase := gp0, inputReadPosition := irp0,
          activeGrains := s1.activeGrains }
      let blockEnd := s1.totalOutputSamples + numSamples
      (fin.outRev.reverse,
        { s1 with lastPeriod := lastPeriod1
                  grainPhase := fin.grainPhase
                  inputReadPosition := fin.inputReadPosition
                  activeGrains := cleanupGrains blockEnd fin.activeGrains
                  totalOutputSamples := s1.totalOutputSamples + numSamples })

end Psola

namespace PD

/-- `PitchDetector::PeriodScore` (PitchDetector.h): energy `E`,
cross-correlation `H` and decision statistic `V = E - 2H`. -/
structure PeriodScore where
  E : ℝ := 0
  H : ℝ := 0
  V : ℝ := 0

/-- `PitchDetector::Result` (PitchDetector.h). -/
structure Result where
  frequency : ℝ := 0
  period : ℝ := 0
  confidence : ℝ := 0
  voiced : Bool := false

/-- `PitchDetector::evaluatePeriod` (PitchDetector.cpp): the decision
statistic over the two-period window `[dataSize - 2*lag, dataSize)`;
the all-zero score for degenerate lags.  The single C++ loop accumulates the
energy and the (window-restricted) correlation together. -/
def evaluatePeriod (data : List ℝ) (lag : ℤ) : PeriodScore :=
  let dataSize : ℤ := (data.length : ℤ)
  if lag ≤ 0 ∨ dataSize ≤ lag * 2 then {}
  else
    let windowEnd := dataSize
    let windowStart := max 0 (windowEnd - lag * 2)
    let acc := (List.range (windowEnd - windowStart).toNat).foldl
      (fun (a : ℝ × ℝ) (i : ℕ) =>
        let n := windowStart + (i : ℤ)
        let current := data.getD n.toNat 0
        let energy := a.1 + current * current
        let prevIndex := n - lag
        let correlation := if windowStart ≤ prevIndex
          then a.2 + current * data.getD prevIndex.toNat 0 else a.2
        (energy, correlation))
      (0, 0)
    { E := acc.1, H := acc.2, V := acc.1 - 2 * acc.2 }

/-- `PitchDetector::refineWithQuadratic` (PitchDetector.cpp). -/
def refineWithQuadratic (bestLag : ℤ) (scores : List PeriodScore) : ℝ :=
  if bestLag ≤ 0 ∨ (scores.length : ℤ) - 1 ≤ bestLag then (bestLag : ℝ)
  else
    let v1 := (scores.getD (bestLag - 1).toNat {}).V
    let v2 := (scores.getD bestLag.toNat {}).V
    let v3 := (scores.getD (bestLag + 1).toNat {}).V
    let denom := v1 - 2 * v2 + v3
    if |denom| < 1e-9 then (bestLag : ℝ)
    else (bestLag : ℝ) + 0.5 * (v1 - v3) / denom

/-- The inclusive integer range `lo .. hi` scanned by the search loops. -/
def lagRange (lo hi : ℤ) : List ℤ := (List.range (hi + 1 - lo).toNat).map (fun (i : ℕ) => lo + (i : ℤ))

/-- The candidate-tracking fold shared by the coarse and fine search loops of
PitchDetector.cpp: skip degenerate-energy candidates (`E < 1e-9`) and keep
the first lag of strictly smallest `V/E`, starting from `(-1, 1.0)`. -/
def searchBest (data : List ℝ) (lags : List ℤ) : ℤ × ℝ :=
  lags.foldl
    (fun (acc : ℤ × ℝ) lag =>
      let score := evaluatePeriod data lag
      if score.E < 1e-9 then acc
      else
        let ratio := score.V / score.E
        if ratio < acc.2 then (lag, ratio) else acc)
    (-1, 1)

/-- The lower bound of the coarse lag range (PitchDetector.cpp,
`coarseSearch`): `max 2 (int (downsampledRate / maxFreqHz))`. -/
def coarseMinLag (sampleRate maxFreqHz : ℝ) : ℤ :=
  max 2 (truncR (sampleRate / 8 / maxFreqHz))

/-- The upper bound of the coarse lag range:
`min 110 (int (downsampledRate / minFreqHz))`.  (The additional
`lag < coarseScores.size()` loop bound never binds: the scores array holds
120 entries and `maxLag <= 110`.) -/
def coarseMaxLag (sampleRate minFreqHz : ℝ) : ℤ :=
  min 110 (truncR (sampleRate / 8 / minFreqHz))

/-- `PitchDetector::coarseSearch` (PitchDetector.cpp): pick the lag of
minimal `V/E`, reject above the lenient 0.5 threshold, then prefer the
half lag when it is in range and also passes 0.5.  `coarseScores[halfLag]`
was written this call exactly when `minLag ≤ halfLag ≤ maxLag` (the array is
zero-filled first); `halfLag ≤ maxLag` and `halfLag < 120` always hold there
since `halfLag < bestLag ≤ maxLag ≤ 110`. -/
def coarseSearch (sampleRate minFreqHz maxFreqHz : ℝ) (data : List ℝ) : ℤ :=
  let minLag := coarseMinLag sampleRate maxFreqHz
  let maxLag := coarseMaxLag sampleRate minFreqHz
  if maxLag ≤ minLag ∨ (data.length : ℤ) / 2 ≤ maxLag then -1
  else
    let best := searchBest data (lagRange minLag maxLag)
    if best.1 ≤ 0 ∨ (0.5 : ℝ) < best.2 then -1
    else
      let halfLag := best.1 / 2
      if minLag ≤ halfLag ∧ halfLag < 120 then
        let halfScore := evaluatePeriod data halfLag
        if 1e-9 < halfScore.E then
          let halfRatio := halfScore.V / halfScore.E
          if halfRatio < 0.5 then halfLag else best.1
        else best.1
      else best.1

/-- `PitchDetector::fineSearch` (PitchDetector.cpp): re-run the search at
full rate in `coarseLag ± 24`, bounded by the caller-tunable strictness
`epsilon`, then refine sub-sample by quadratic interpolation.  The
member score array is threaded through because `refineWithQuadratic` may
read entries written by earlier calls. -/
def fineSearch (epsilon : ℝ) (data : List ℝ) (coarseLag : ℤ)
    (fineScores : List PeriodScore) : ℝ × List PeriodScore :=
  let searchRadius : ℤ := 8 * 3
  let minLag := max 2 (coarseLag - searchRadius)
  let maxLag := min ((data.length : ℤ) / 2 - 1) (coarseLag + searchRadius)
  if maxLag ≤ minLag then (-1, fineScores)
  else
    let scores0 := if (fineScores.length : ℤ) < maxLag + 1
      then fineScores ++ List.replicate ((maxLag + 2).toNat - fineScores.length) ({} : PeriodScore)
      else fineScores
    let scores1 := (lagRange minLag maxLag).foldl
      (fun (sc : List PeriodScore) lag => sc.set lag.toNat (evaluatePeriod data lag)) scores0
    let best := searchBest data (lagRange minLag maxLag)
    if best.1 ≤ 0 ∨ epsilon < best.2 then (-1, scores1)
    else (refineWithQuadratic best.1 scores1, scores1)

/-- The `PitchDetector` state (PitchDetector.h private members).  The
decimation filter is a constant (sample-rate independent) and the Hann
`analysisWindow` computed in `prepare` is never read by `process`, so
neither is part of the state. -/
structure DState where
  inputBuffer : List ℝ
  inputWritePos : ℤ
  fineScores : List PeriodScore
  lastPeriod : ℝ
  lastConfidence : ℝ
  stableFrameCount : ℤ
  sampleRate : ℝ
  minFreqHz : ℝ
  maxFreqHz : ℝ
  epsilon : ℝ
  analysisWindowSize : ℤ

/-- The windowed-sinc decimation filter designed in `PitchDetector::prepare`
(33 Hann-windowed taps, cutoff 1/16), before DC normalisation. -/
def decimationFilterRaw : List ℝ :=
  (List.range 33).map (fun (n : ℕ) =>
    let x : ℝ := (n : ℝ) - 16
    let window := 0.5 - 0.5 * Real.cos (2 * π * (n : ℝ) / 32)
    let sinc := if |x| < 1e-6 then 2 * (1 / 16 : ℝ)
      else Real.sin (2 * π * (1 / 16 : ℝ) * x) / (π * x)
    window * sinc)

/-- The decimation filter after the DC normalisation of `prepare` (the sum
is divided out when its magnitude exceeds 1e-6). -/
def decimationFilter : List ℝ :=
  let sum := decimationFilterRaw.sum
  if 1e-6 < |sum| then decimationFilterRaw.map (fun c => c / sum) else decimationFilterRaw

/-- `PitchDetector::downsample` (PitchDetector.cpp): 8x decimation through
the 33-tap filter, zero-padded at the frame edges. -/
def downsample (input : List ℝ) : List ℝ :=
  let inputSize : ℤ := (input.length : ℤ)
  (List.range (inputSize / 8).toNat).map (fun (n : ℕ) =>
    (List.range 33).foldl
      (fun (acc : ℝ) (k : ℕ) =>
        let sampleIdx : ℤ := (n : ℤ) * 8 - 16 + (k : ℤ)
        let sample := if 0 ≤ sampleIdx ∧ sampleIdx < inputSize
          then input.getD sampleIdx.toNat 0 else 0
        acc + sample * decimationFilter.getD k 0)
      0)

/-- `PitchDetector::prepare` (PitchDetector.cpp): analysis window of 4
maximum periods, input buffer of twice that, 120 coarse and
`analysisWindowSize/2` fine score slots, then `reset()` (which clears the
buffer and the tracking state). -/
def prepare (st : DState) (sr : ℝ) : DState :=
  let maxPeriod := truncR (sr / st.minFreqHz)
  let aws := maxPeriod * 4
  { st with sampleRate := sr
            analysisWindowSize := aws
            inputBuffer := List.replicate (aws * 2).toNat 0
            inputWritePos := 0
            fineScores := List.replicate (aws / 2).toNat {}
            lastPeriod := 0
            lastConfidence := 0
            stableFrameCount := 0 }

/-- Default-constructed `PitchDetector` configuration (PitchDetector.h):
44100 Hz, AltoTenor preset bounds 80..800 Hz, epsilon 0.15. -/
def initState : DState :=
  { inputBuffer := []
    inputWritePos := 0
    fineScores := []
    lastPeriod := 0
    lastConfidence := 0
    stableFrameCount := 0
    sampleRate := 44100
    minFreqHz := 80
    maxFreqHz := 800
    epsilon := 0.15
    analysisWindowSize := 0 }

/-- The input-accumulation step of `PitchDetector::process`: write the block
into the circular history buffer. -/
def writeState (st : DState) (input : List ℝ) : DState :=
  let wr := writeInput st.inputBuffer st.inputWritePos input
  { st with inputBuffer := wr.1, inputWritePos := wr.2 }

/-- The analysis-frame extraction of `PitchDetector::process`: the last
`analysisWindowSize` samples ending at the write position (un-windowed),
with the DC offset removed. -/
def extractFrame (st : DState) : List ℝ :=
  let bufferSize : ℤ := (st.inputBuffer.length : ℤ)
  let frame0 := (List.range st.analysisWindowSize.toNat).map (fun (i : ℕ) =>
    let idx := ((st.inputWritePos - st.analysisWindowSize + (i : ℤ)).tmod bufferSize
      + bufferSize).tmod bufferSize
    st.inputBuffer.getD idx.toNat 0)
  let mean := frame0.sum / (st.analysisWindowSize : ℝ)
  frame0.map (fun s => s - mean)

/-- `PitchDetector::process` (PitchDetector.cpp): accumulate input, extract
and DC-correct the analysis frame, downsample, coarse search, fine search,
band check, then confidence with lock-in hysteresis.  All rejection paths
return the default (unvoiced, all-zero) `Result`. -/
def process (st : DState) (input : List ℝ) : Result × DState :=
  if input.length = 0 then ({}, st)
  else
    let st1 := writeState st input
    let frame := extractFrame st1
    let ds := downsample frame
    let coarseLag := coarseSearch st1.sampleRate st1.minFreqHz st1.maxFreqHz ds
    if coarseLag ≤ 0 then ({}, st1)
    else
      let fs := fineSearch st1.epsilon frame (coarseLag * 8) st1.fineScores
      let refinedPeriod := fs.1
      let st2 := { st1 with fineScores := fs.2 }
      if refinedPeriod ≤ 0 then ({}, st2)
      else
        let frequency := st2.sampleRate / refinedPeriod
        if frequency < st2.minFreqHz ∨ st2.maxFreqHz < frequency then ({}, st2)
        else
          let periodInt := truncR (refinedPeriod + 0.5)
          let score := evaluatePeriod frame periodInt
          if score.E < 1e-9 then ({}, st2)
          else
            let normalizedError := score.V / score.E
            let confidence0 := jlimit 0 1 (1 - normalizedError / st2.epsilon)
            let cs :=
              if 0 < st2.lastPeriod then
                let periodRatio := refinedPeriod / st2.lastPeriod
                if 0.95 < periodRatio ∧ periodRatio < 1.05 then
                  (min 1 (confidence0 + 0.1 * ((st2.stableFrameCount + 1 : ℤ) : ℝ) / 10),
                    st2.stableFrameCount + 1)
                else (confidence0, (0 : ℤ))
              else (confidence0, st2.stableFrameCount)
            ({ frequency := frequency, period := refinedPeriod, confidence := cs.1,
               voiced := decide ((0.2 : ℝ) < cs.1) },
             { st2 with lastPeriod := refinedPeriod
                        lastConfidence := cs.1
                        stableFrameCount := cs.2 })

end PD

/-! Basic facts about the C-style rounding and truncated modulo helpers. -/

lemma truncR_eq_floor {x : ℝ} (h : 0 ≤ x) : truncR x = ⌊x⌋ := by
  simp [truncR, h]

lemma roundCpp_close (x : ℝ) : |(roundCpp x : ℝ) - x| ≤ 1/2 := by
  unfold roundCpp
  split
  · have h1 : (⌊x + 1/2⌋ : ℝ) ≤ x + 1/2 := Int.floor_le _
    have h2 : x + 1/2 - 1 < (⌊x + 1/2⌋ : ℝ) := Int.sub_one_lt_floor _
    rw [abs_le]
    constructor <;> push_cast <;> linarith
  · have h1 : (⌊-x + 1/2⌋ : ℝ) ≤ -x + 1/2 := Int.floor_le _
    have h2 : -x + 1/2 - 1 < (⌊-x + 1/2⌋ : ℝ) := Int.sub_one_lt_floor _
    rw [abs_le]
    constructor <;> push_cast <;> linarith

lemma roundCpp_intCast (k : ℤ) : roundCpp (k : ℝ) = k := by
  unfold roundCpp
  split
  · rw [show ((k : ℝ) + 1/2) = 1/2 + (k : ℝ) by ring, Int.floor_add_int]
    norm_num
  · rw [show (-(k : ℝ) + 1/2) = 1/2 + ((-k : ℤ) : ℝ) by push_cast; ring, Int.floor_add_int]
    norm_num

lemma neg_tmod_eq (a b : ℤ) : (-a).tmod b = -(a.tmod b) := by
  rw [Int.tmod_def, Int.tmod_def, Int.neg_tdiv]
  ring

lemma tmod12_bounds (c : ℤ) : -12 < c.tmod 12 ∧ c.tmod 12 < 12 := by
  refine ⟨?_, Int.tmod_lt_of_pos _ (by norm_num)⟩
  rcases le_or_lt 0 c with h | h
  · have := Int.tmod_nonneg 12 h
    omega
  · have h2 : (-c).tmod 12 < 12 := Int.tmod_lt_of_pos _ (by norm_num)
    have h3 : c.tmod 12 = -((-c).tmod 12) := by
      have h4 := neg_tmod_eq (-c) 12
      simpa using h4
    omega

namespace ScaleMapper

lemma pitchClassOf_eq (c : ℤ) : (pitchClassOf c : ℤ) = c % 12 := by
  unfold pitchClassOf
  have hb := tmod12_bounds c
  have h0 : (0 : ℤ) ≤ c.tmod 12 + 12 := by omega
  rw [Int.tmod_eq_emod h0 (by norm_num)]
  have ht : c.tmod 12 = c - 12 * c.tdiv 12 := by
    have := Int.tmod_add_tdiv c 12
    omega
  rw [Int.toNat_of_nonneg (Int.emod_nonneg _ (by norm_num))]
  rw [ht]
  omega

lemma pitchClassOf_lt (c : ℤ) : pitchClassOf c < 12 := by
  have h := pitchClassOf_eq c
  have h2 : c % 12 < 12 := Int.emod_lt_of_pos _ (by norm_num)
  omega

/-- The mask-membership test of `snapToScale`, as a predicate. -/
def inMask (mask : ℕ) (c : ℤ) : Prop := mask &&& (1 <<< pitchClassOf c) ≠ 0

instance (mask : ℕ) (c : ℤ) : Decidable (inMask mask c) := by
  unfold inMask; infer_instance

lemma inMask_iff_testBit (mask : ℕ) (c : ℤ) :
    inMask mask c ↔ mask.testBit (pitchClassOf c) = true := by
  unfold inMask
  rw [Nat.shiftLeft_eq, one_mul, Nat.and_two_pow]
  rcases h : mask.testBit (pitchClassOf c) <;> simp [h]

lemma inMask_congr (mask : ℕ) {c d : ℤ} (h : c % 12 = d % 12) :
    inMask mask c ↔ inMask mask d := by
  have hc := pitchClassOf_eq c
  have hd := pitchClassOf_eq d
  have : pitchClassOf c = pitchClassOf d := by omega
  unfold inMask
  rw [this]

lemma exists_setBit {mask : ℕ} (hne : mask ≠ 0) (hlt : mask < 4096) :
    ∃ j : ℕ, j < 12 ∧ mask.testBit j = true := by
  by_contra h
  push_neg at h
  have : ∀ j : ℕ, mask.testBit j = false := by
    intro j
    rcases lt_or_le j 12 with hj | hj
    · rcases hb : mask.testBit j
      · rfl
      · exact absurd hb (by simpa using h j hj)
    · rcases hb : mask.testBit j
      · rfl
      · have := Nat.testBit_implies_ge hb
        have : (4096 : ℕ) ≤ 2 ^ j := by
          calc (4096 : ℕ) = 2 ^ 12 := by norm_num
          _ ≤ 2 ^ j := Nat.pow_le_pow_right (by norm_num) hj
        omega
  exact hne (Nat.eq_of_testBit_eq (fun j => by rw [this j, Nat.zero_testBit]))

lemma mem_deltas {d : ℤ} (h1 : -12 ≤ d) (h2 : d ≤ 12) : d ∈ deltas := by
  interval_cases d <;> decide

lemma deltas_bounded : ∀ d ∈ deltas, -12 ≤ d ∧ d ≤ 12 := by decide

/-- Any non-zero 12-bit mask has an in-mask note within the 25-candidate
window `r - 12 .. r + 12` (indeed within `r - 11 .. r`). -/
lemma exists_delta_inMask {mask : ℕ} (hne : mask ≠ 0) (hlt : mask < 4096) (r : ℤ) :
    ∃ δ ∈ deltas, inMask mask (r + δ) := by
  obtain ⟨j, hj12, hj⟩ := exists_setBit hne hlt
  refine ⟨(j : ℤ) - r % 12, mem_deltas ?_ ?_, ?_⟩
  · have h1 : r % 12 < 12 := Int.emod_lt_of_pos _ (by norm_num)
    omega
  · have h2 : 0 ≤ r % 12 := Int.emod_nonneg _ (by norm_num)
    omega
  · rw [inMask_iff_testBit]
    have hpc : (pitchClassOf (r + ((j : ℤ) - r % 12)) : ℤ) = (j : ℤ) := by
      rw [pitchClassOf_eq]
      omega
    have : pitchClassOf (r + ((j : ℤ) - r % 12)) = j := by omega
    rw [this, hj]

/-- The good states of the `snapToScale` search loop: either nothing in-mask
has been seen yet (the accumulator is still the sentinel), or the accumulator
holds an in-mask candidate together with its true distance. -/
def SnapP2 (mask : ℕ) (m : ℝ) (acc : ℤ × ℝ) : Prop :=
  inMask mask acc.1 ∧ acc.2 = |(acc.1 : ℝ) - m| ∧ |acc.1 - roundCpp m| ≤ 12

def SnapInv (mask : ℕ) (m : ℝ) (acc : ℤ × ℝ) : Prop :=
  acc = (roundCpp m, fltMax) ∨ SnapP2 mask m acc

lemma snapStep_eq (mask : ℕ) (m : ℝ) (rounded : ℤ) (acc : ℤ × ℝ) (δ : ℤ) :
    snapStep mask m rounded acc δ =
      if mask &&& (1 <<< pitchClassOf (rounded + δ)) ≠ 0 then
        (if |((rounded + δ : ℤ) : ℝ) - m| < acc.2
          then (rounded + δ, |((rounded + δ : ℤ) : ℝ) - m|) else acc)
      else acc := rfl

lemma abs_add_sub_self {δ : ℤ} (r : ℤ) (hδ : -12 ≤ δ ∧ δ ≤ 12) : |r + δ - r| ≤ 12 := by
  rw [show r + δ - r = δ by ring, abs_le]
  exact hδ

lemma snapStep_P2 {mask : ℕ} {m : ℝ} {acc : ℤ × ℝ} {δ : ℤ}
    (h : SnapP2 mask m acc) (hδ : -12 ≤ δ ∧ δ ≤ 12) :
    SnapP2 mask m (snapStep mask m (roundCpp m) acc δ) := by
  rw [snapStep_eq]
  split
  next hb =>
    split
    · exact ⟨hb, rfl, abs_add_sub_self _ hδ⟩
    · exact h
  next hb => exact h

lemma snapStep_inv {mask : ℕ} {m : ℝ} {acc : ℤ × ℝ} {δ : ℤ}
    (h : SnapInv mask m acc) (hδ : -12 ≤ δ ∧ δ ≤ 12) :
    SnapInv mask m (snapStep mask m (roundCpp m) acc δ) := by
  rcases h with h | h
  · rw [snapStep_eq]
    split
    next hb =>
      split
      · exact Or.inr ⟨hb, rfl, abs_add_sub_self _ hδ⟩
      · exact Or.inl h
    next hb => exact Or.inl h
  · exact Or.inr (snapStep_P2 h hδ)

lemma dist_lt_fltMax {m : ℝ} {δ : ℤ} (hδ : -12 ≤ δ ∧ δ ≤ 12) :
    |((roundCpp m + δ : ℤ) : ℝ) - m| < fltMax := by
  have h1 := roundCpp_close m
  have h2 : |((roundCpp m + δ : ℤ) : ℝ) - m| ≤ |(roundCpp m : ℝ) - m| + |(δ : ℝ)| := by
    have : ((roundCpp m + δ : ℤ) : ℝ) - m = ((roundCpp m : ℝ) - m) + (δ : ℝ) := by
      push_cast
      ring
    rw [this]
    exact abs_add _ _
  have h3 : |(δ : ℝ)| ≤ 12 := by
    rw [abs_le]
    constructor <;> [exact_mod_cast hδ.1; exact_mod_cast hδ.2]
  have : fltMax = (2 ^ 24 - 1) * 2 ^ 104 := rfl
  nlinarith [this]

lemma snapStep_hit {mask : ℕ} {m : ℝ} {acc : ℤ × ℝ} {δ : ℤ}
    (h : SnapInv mask m acc) (hδ : -12 ≤ δ ∧ δ ≤ 12)
    (hin : inMask mask (roundCpp m + δ)) :
    SnapP2 mask m (snapStep mask m (roundCpp m) acc δ) := by
  rcases h with h | h
  · have hin' : mask &&& (1 <<< pitchClassOf (roundCpp m + δ)) ≠ 0 := hin
    rw [snapStep_eq, if_pos hin', h]
    dsimp only
    rw [if_pos (dist_lt_fltMax hδ)]
    exact ⟨hin, rfl, abs_add_sub_self _ hδ⟩
  · exact snapStep_P2 h hδ

lemma snapFold_P2 {mask : ℕ} {m : ℝ} {acc : ℤ × ℝ} {l : List ℤ}
    (h : SnapP2 mask m acc) (hl : ∀ δ ∈ l, -12 ≤ δ ∧ δ ≤ 12) :
    SnapP2 mask m (l.foldl (snapStep mask m (roundCpp m)) acc) := by
  induction l generalizing acc with
  | nil => exact h
  | cons a l ih =>
    rw [List.foldl_cons]
    exact ih (snapStep_P2 h (hl a (by simp))) (fun δ hδ => hl δ (by simp [hδ]))

lemma snapFold_hit {mask : ℕ} {m : ℝ} {acc : ℤ × ℝ} {l : List ℤ}
    (h : SnapInv mask m acc) (hl : ∀ δ ∈ l, -12 ≤ δ ∧ δ ≤ 12)
    (hex : ∃ δ ∈ l, inMask mask (roundCpp m + δ)) :
    SnapP2 mask m (l.foldl (snapStep mask m (roundCpp m)) acc) := by
  induction l generalizing acc with
  | nil => exact absurd hex (by simp)
  | cons a l ih =>
    rw [List.foldl_cons]
    rcases hex with ⟨δ, hδl, hδin⟩
    rcases List.mem_cons.mp hδl with rfl | hmem
    · exact snapFold_P2 (snapStep_hit h (hl δ (by simp)) hδin)
        (fun x hx => hl x (by simp [hx]))
    · exact ih (snapStep_inv h (hl a (by simp)))
        (fun x hx => hl x (by simp [hx])) ⟨δ, hmem, hδin⟩

lemma snapStep_snd_le {mask : ℕ} {m : ℝ} (rounded : ℤ) (acc : ℤ × ℝ) (δ : ℤ) :
    (snapStep mask m rounded acc δ).2 ≤ acc.2 := by
  rw [snapStep_eq]
  split
  · split
    · simp only []
      linarith [(by assumption : |((rounded + δ : ℤ) : ℝ) - m| < acc.2)]
    · exact le_refl _
  · exact le_refl _

lemma snapFold_snd_le {mask : ℕ} {m : ℝ} (rounded : ℤ) (acc : ℤ × ℝ) (l : List ℤ) :
    (l.foldl (snapStep mask m rounded) acc).2 ≤ acc.2 := by
  induction l generalizing acc with
  | nil => exact le_refl _
  | cons a l ih =>
    rw [List.foldl_cons]
    exact le_trans (ih _) (snapStep_snd_le rounded acc a)

lemma snapStep_dominates {mask : ℕ} {m : ℝ} (rounded : ℤ) (acc : ℤ × ℝ) {δ : ℤ}
    (hin : inMask mask (rounded + δ)) :
    (snapStep mask m rounded acc δ).2 ≤ |((rounded + δ : ℤ) : ℝ) - m| := by
  have hin' : mask &&& (1 <<< pitchClassOf (rounded + δ)) ≠ 0 := hin
  rw [snapStep_eq, if_pos hin']
  split
  · exact le_refl _
  next hd => linarith [not_lt.mp hd]

lemma snapFold_min {mask : ℕ} {m : ℝ} (rounded : ℤ) (acc : ℤ × ℝ) (l : List ℤ) :
    ∀ δ ∈ l, inMask mask (rounded + δ) →
      (l.foldl (snapStep mask m rounded) acc).2 ≤ |((rounded + δ : ℤ) : ℝ) - m| := by
  induction l generalizing acc with
  | nil => intro δ h; exact absurd h (by simp)
  | cons a l ih =>
    intro δ hδ hin
    rw [List.foldl_cons]
    rcases List.mem_cons.mp hδ with rfl | hmem
    · exact le_trans (snapFold_snd_le rounded _ l) (snapStep_dominates rounded acc hin)
    · exact ih _ δ hmem hin

/-- Summary specification of `snapToScale` for a non-zero 12-bit mask: the
result is an in-mask note within ±12 semitones of the rounded input, at
minimal distance from the input over all 25 candidates. -/
lemma snapToScale_spec {mask : ℕ} (hne : mask ≠ 0) (hlt : mask < 4096) (m : ℝ) :
    inMask mask (snapToScale mask m) ∧
    |snapToScale mask m - roundCpp m| ≤ 12 ∧
    ∀ δ ∈ deltas, inMask mask (roundCpp m + δ) →
      |(snapToScale mask m : ℝ) - m| ≤ |((roundCpp m + δ : ℤ) : ℝ) - m| := by
  have hfold := @snapFold_hit mask m (roundCpp m, fltMax) deltas
    (Or.inl rfl) deltas_bounded (exists_delta_inMask hne hlt (roundCpp m))
  obtain ⟨h1, h2, h3⟩ := hfold
  have he : snapToScale mask m =
      (deltas.foldl (snapStep mask m (roundCpp m)) (roundCpp m, fltMax)).1 := rfl
  refine ⟨by rw [he]; exact h1, by rw [he]; exact h3, ?_⟩
  intro δ hδ hin
  have hm := @snapFold_min mask m (roundCpp m) ((roundCpp m, fltMax)) deltas δ hδ hin
  rw [he, ← h2]
  exact hm

/-- If an in-mask candidate is strictly closer to the input than every other
in-mask candidate in the window, `snapToScale` returns it. -/
lemma snapToScale_unique {mask : ℕ} (hne : mask ≠ 0) (hlt : mask < 4096) (m : ℝ)
    (cstar : ℤ) (hd : cstar - roundCpp m ∈ deltas) (hin : inMask mask cstar)
    (hmin : ∀ δ ∈ deltas, inMask mask (roundCpp m + δ) → roundCpp m + δ ≠ cstar →
      |(cstar : ℝ) - m| < |((roundCpp m + δ : ℤ) : ℝ) - m|) :
    snapToScale mask m = cstar := by
  obtain ⟨h1, h2, h3⟩ := snapToScale_spec hne hlt m
  by_contra hne2
  have h2' := abs_le.mp h2
  have hδb : snapToScale mask m - roundCpp m ∈ deltas :=
    mem_deltas (by omega) (by omega)
  have hb := hmin (snapToScale mask m - roundCpp m) hδb
    (by rw [show roundCpp m + (snapToScale mask m - roundCpp m) = snapToScale mask m by ring]; exact h1)
    (by rw [show roundCpp m + (snapToScale mask m - roundCpp m) = snapToScale mask m by ring]; exact hne2)
  have hc := h3 (cstar - roundCpp m) hd
    (by rw [show roundCpp m + (cstar - roundCpp m) = cstar by ring]; exact hin)
  rw [show roundCpp m + (cstar - roundCpp m) = cstar by ring] at hc
  rw [show roundCpp m + (snapToScale mask m - roundCpp m) = snapToScale mask m by ring] at hb
  linarith

/-- A note already in the mask is a fixed point of `snapToScale`. -/
lemma snapToScale_fix {mask : ℕ} (hne : mask ≠ 0) (hlt : mask < 4096) (k : ℤ)
    (hin : inMask mask k) : snapToScale mask ((k : ℤ) : ℝ) = k := by
  apply snapToScale_unique hne hlt _ k _ hin
  · intro δ hδ hink hne3
    have h1 : roundCpp ((k : ℤ) : ℝ) = k := roundCpp_intCast k
    rw [h1] at hne3 ⊢
    have h2 : (1 : ℝ) ≤ |((k + δ : ℤ) : ℝ) - (k : ℝ)| := by
      have : ((k + δ : ℤ) : ℝ) - (k : ℝ) = (δ : ℝ) := by push_cast; ring
      rw [this]
      have hδ0 : δ ≠ 0 := by intro h; apply hne3; omega
      have : (1 : ℤ) ≤ |δ| := Int.one_le_abs hδ0
      calc (1 : ℝ) ≤ |(δ : ℤ)| := by exact_mod_cast this
      _ = |(δ : ℝ)| := by push_cast; rfl
    have h3 : |(k : ℝ) - (k : ℝ)| = 0 := by simp
    rw [h3]
    linarith
  · rw [roundCpp_intCast]
    exact mem_deltas (by omega) (by omega)

lemma addPattern_lt (root : ℤ) (pattern : List ℤ) : addPattern root pattern < 4096 := by
  unfold addPattern
  have key : ∀ (l : List ℤ) (acc : ℕ), acc < 4096 →
      l.foldl (fun mask interval => mask ||| (1 <<< ((root + interval).tmod 12).toNat)) acc < 4096 := by
    intro l
    induction l with
    | nil => intro acc h; exact h
    | cons a l ih =>
      intro acc h
      rw [List.foldl_cons]
      apply ih
      have hpc : ((root + a).tmod 12).toNat < 12 := by
        have := tmod12_bounds (root + a)
        omega
      have h1 : (1 <<< ((root + a).tmod 12).toNat) < 4096 := by
        rw [Nat.shiftLeft_eq, one_mul]
        calc 2 ^ ((root + a).tmod 12).toNat < 2 ^ 12 :=
          Nat.pow_lt_pow_right (by norm_num) hpc
        _ = 4096 := by norm_num
      have h12 : (4096 : ℕ) = 2 ^ 12 := by norm_num
      rw [h12]
      apply Nat.or_lt_two_pow
      · rw [← h12]; exact h
      · rw [← h12]; exact h1
  exact key _ 0 (by norm_num)

lemma getMaskForScale_lt (t : ScaleType) (root : ℤ) : getMaskForScale t root < 4096 := by
  cases t <;> first
    | exact addPattern_lt root _
    | norm_num [getMaskForScale]

lemma setSettings_mask (s : Settings) :
    (setSettings s).currentMask ≠ 0 ∧ (setSettings s).currentMask < 4096 := by
  unfold setSettings
  dsimp only
  by_cases hc : s.type = ScaleType.Custom
  · rw [if_pos hc]
    constructor
    · split
      · norm_num
      next h => exact h
    · split
      · norm_num
      · have : s.customMask &&& 0x0FFF ≤ 0x0FFF := Nat.and_le_right
        omega
  · rw [if_neg hc]
    constructor
    · split
      · norm_num
      next h => exact h
    · split
      · norm_num
      · exact getMaskForScale_lt _ _

lemma midiToFrequency_pos (m : ℝ) : 0 < midiToFrequency m := by
  unfold midiToFrequency
  positivity

lemma frequencyToMidi_midiToFrequency (x : ℝ) : frequencyToMidi (midiToFrequency x) = x := by
  unfold frequencyToMidi midiToFrequency
  rw [if_neg (not_le.mpr (by positivity))]
  rw [show (440 : ℝ) * (2 : ℝ) ^ ((x - 69) / 12) / 440 = (2 : ℝ) ^ ((x - 69) / 12) by ring]
  rw [Real.logb_rpow (by norm_num) (by norm_num)]
  ring

lemma map_valid_eq (st : MapperState) (f : ℝ) (ov : ℤ) (h : ¬(f ≤ 0 ∧ ov < 0)) :
    map st f ov =
      { targetMidi := (snapToScale st.currentMask
            ((if 0 ≤ ov then (ov : ℝ) else frequencyToMidi f) + (st.settings.transpose : ℝ)) : ℝ)
            + st.settings.detune / 100
        targetFrequency := midiToFrequency ((snapToScale st.currentMask
            ((if 0 ≤ ov then (ov : ℝ) else frequencyToMidi f) + (st.settings.transpose : ℝ)) : ℝ)
            + st.settings.detune / 100)
        targetNoteNumber := snapToScale st.currentMask
            ((if 0 ≤ ov then (ov : ℝ) else frequencyToMidi f) + (st.settings.transpose : ℝ))
        deviationCents := (((if 0 ≤ ov then (ov : ℝ) else frequencyToMidi f)
            + (st.settings.transpose : ℝ))
            - (snapToScale st.currentMask
                ((if 0 ≤ ov then (ov : ℝ) else frequencyToMidi f) + (st.settings.transpose : ℝ)) : ℝ)) * 100 } := by
  rw [map, if_neg h]

lemma map_noOverride_eq (st : MapperState) (f : ℝ) (hf : 0 < f) :
    map st f (-1) =
      { targetMidi := (snapToScale st.currentMask
            (frequencyToMidi f + (st.settings.transpose : ℝ)) : ℝ) + st.settings.detune / 100
        targetFrequency := midiToFrequency ((snapToScale st.currentMask
            (frequencyToMidi f + (st.settings.transpose : ℝ)) : ℝ) + st.settings.detune / 100)
        targetNoteNumber := snapToScale st.currentMask
            (frequencyToMidi f + (st.settings.transpose : ℝ))
        deviationCents := ((frequencyToMidi f + (st.settings.transpose : ℝ))
            - (snapToScale st.currentMask
                (frequencyToMidi f + (st.settings.transpose : ℝ)) : ℝ)) * 100 } := by
  rw [map_valid_eq st f (-1) (by intro h; linarith [h.1])]
  norm_num

lemma setSettings_settings (s : Settings) : (setSettings s).settings = s := rfl

end ScaleMapper

/-- C3: the claim fails on the code because `ScaleMapper::map` re-applies the
transpose and detune to the already-snapped frequency.  With the chromatic
scale and detune = 60 cents, 440 Hz first maps to note 69, but mapping the
produced target frequency (69.6 semitones) again yields note 70. -/
theorem scale_snap_idempotent_counterexample :
    (ScaleMapper.map
        (ScaleMapper.setSettings
          { type := .Chromatic, root := 0, customMask := 0x0FFF, transpose := 0, detune := 60 })
        440 (-1)).targetNoteNumber = 69 ∧
    (ScaleMapper.map
        (ScaleMapper.setSettings
          { type := .Chromatic, root := 0, customMask := 0x0FFF, transpose := 0, detune := 60 })
        ((ScaleMapper.map
            (ScaleMapper.setSettings
              { type := .Chromatic, root := 0, customMask := 0x0FFF, transpose := 0, detune := 60 })
            440 (-1)).targetFrequency) (-1)).targetNoteNumber = 70 := by
  set st := ScaleMapper.setSettings
    { type := .Chromatic, root := 0, customMask := 0x0FFF, transpose := 0, detune := 60 } with hst
  have hmask : st.currentMask = 0x0FFF := rfl
  have hs : st.settings =
      { type := .Chromatic, root := 0, customMask := 0x0FFF, transpose := 0, detune := 60 } := rfl
  have hf69 : ScaleMapper.frequencyToMidi 440 = 69 := by
    unfold ScaleMapper.frequencyToMidi
    rw [if_neg (by norm_num)]
    norm_num [Real.logb_self_eq_one]
  have hmidi1 : ScaleMapper.frequencyToMidi 440 + ((0 : ℤ) : ℝ) = ((69 : ℤ) : ℝ) := by
    rw [hf69]; norm_num
  have hsnap1 : ScaleMapper.snapToScale st.currentMask
      (ScaleMapper.frequencyToMidi 440 + ((0 : ℤ) : ℝ)) = 69 := by
    rw [hmidi1, hmask]
    exact ScaleMapper.snapToScale_fix (by norm_num) (by norm_num) 69 (by decide)
  have h1 : (ScaleMapper.map st 440 (-1)).targetNoteNumber = 69 := by
    rw [ScaleMapper.map_noOverride_eq st 440 (by norm_num), hs]
    exact hsnap1
  refine ⟨h1, ?_⟩
  have htf : (ScaleMapper.map st 440 (-1)).targetFrequency =
      ScaleMapper.midiToFrequency ((69 : ℝ) + 60 / 100) := by
    rw [ScaleMapper.map_noOverride_eq st 440 (by norm_num), hs]
    dsimp only
    rw [hsnap1]
    norm_num
  rw [htf]
  have hpos2 : (0 : ℝ) < ScaleMapper.midiToFrequency ((69 : ℝ) + 60 / 100) :=
    ScaleMapper.midiToFrequency_pos _
  rw [ScaleMapper.map_noOverride_eq st _ hpos2, hs]
  dsimp only
  have hround : ScaleMapper.frequencyToMidi
      (ScaleMapper.midiToFrequency ((69 : ℝ) + 60 / 100)) + ((0 : ℤ) : ℝ) = 69.6 := by
    rw [ScaleMapper.frequencyToMidi_midiToFrequency]
    norm_num
  rw [hround, hmask]
  have hrc : roundCpp (69.6 : ℝ) = 70 := by
    unfold roundCpp
    rw [if_pos (by norm_num)]
    rw [show (69.6 : ℝ) + 1/2 = 70.1 by norm_num]
    rw [Int.floor_eq_iff] <;> norm_num
  apply ScaleMapper.snapToScale_unique (by norm_num) (by norm_num) _ 70
  · rw [hrc]
    exact ScaleMapper.mem_deltas (by norm_num) (by norm_num)
  · decide
  · intro δ hδ hin hne
    rw [hrc] at hne
    have hb := ScaleMapper.deltas_bounded δ hδ
    have hδ0 : δ ≠ 0 := by intro h; apply hne; omega
    rw [hrc]
    push_cast
    have hl : |(70 : ℝ) - 69.6| = 0.4 := by
      rw [show (70 : ℝ) - 69.6 = 0.4 by norm_num]
      rw [abs_of_pos] <;> norm_num
    rw [hl]
    rw [show (70 : ℝ) + (δ : ℝ) - 69.6 = (δ : ℝ) + 0.4 by ring]
    rcases lt_or_gt_of_ne hδ0 with hneg | hpos
    · have : (δ : ℝ) ≤ -1 := by exact_mod_cast (by omega : δ ≤ -1)
      rw [abs_of_nonpos (by linarith)]
      linarith
    · have : (1 : ℝ) ≤ (δ : ℝ) := by exact_mod_cast (by omega : 1 ≤ δ)
      rw [abs_of_nonneg (by linarith)]
      linarith

/-- C3 (amended): scale snapping is idempotent provided the settings apply no
transpose and no detune — `map` applied a second time to the produced target
frequency returns the same target note number.  (With a non-zero transpose or
detune the second call re-applies them, moving the note, as the
counterexample shows.) -/
theorem scale_snap_idempotent_amended :
    ∀ (s : ScaleMapper.Settings) (f : ℝ), 0 < f → s.transpose = 0 → s.detune = 0 →
      (ScaleMapper.map (ScaleMapper.setSettings s)
          ((ScaleMapper.map (ScaleMapper.setSettings s) f (-1)).targetFrequency)
          (-1)).targetNoteNumber
        = (ScaleMapper.map (ScaleMapper.setSettings s) f (-1)).targetNoteNumber := by
  intro s f hf ht hd
  obtain ⟨hne, hlt⟩ := ScaleMapper.setSettings_mask s
  set st := ScaleMapper.setSettings s with hst
  have hs : st.settings = s := rfl
  rw [ScaleMapper.map_noOverride_eq st f hf, hs, ht, hd]
  dsimp only
  set m := ScaleMapper.frequencyToMidi f + ((0 : ℤ) : ℝ) with hm
  set k := ScaleMapper.snapToScale st.currentMask m with hk
  have hkin : ScaleMapper.inMask st.currentMask k := (ScaleMapper.snapToScale_spec hne hlt m).1
  have hfreq : (k : ℝ) + 0 / 100 = ((k : ℤ) : ℝ) := by norm_num
  rw [hfreq]
  have hpos2 : (0 : ℝ) < ScaleMapper.midiToFrequency ((k : ℤ) : ℝ) :=
    ScaleMapper.midiToFrequency_pos _
  rw [ScaleMapper.map_noOverride_eq st _ hpos2, hs, ht]
  dsimp only
  rw [ScaleMapper.frequencyToMidi_midiToFrequency]
  rw [show ((k : ℤ) : ℝ) + ((0 : ℤ) : ℝ) = ((k : ℤ) : ℝ) by norm_num]
  exact ScaleMapper.snapToScale_fix hne hlt k hkin

/-- C3 witness: the amended idempotence theorem applied at the chromatic
scale with zero transpose/detune and a 440 Hz input. -/
theorem scale_snap_idempotent_witness :
    (0 : ℝ) < 440 ∧
    (ScaleMapper.map
        (ScaleMapper.setSettings
          { type := .Chromatic, root := 0, customMask := 0x0FFF, transpose := 0, detune := 0 })
        ((ScaleMapper.map
            (ScaleMapper.setSettings
              { type := .Chromatic, root := 0, customMask := 0x0FFF, transpose := 0, detune := 0 })
            440 (-1)).targetFrequency) (-1)).targetNoteNumber
      = (ScaleMapper.map
          (ScaleMapper.setSettings
            { type := .Chromatic, root := 0, customMask := 0x0FFF, transpose := 0, detune := 0 })
          440 (-1)).targetNoteNumber :=
  ⟨by norm_num, scale_snap_idempotent_amended _ 440 (by norm_num) rfl rfl⟩

/-- C2: the claim is false for `maskForType` with the `Custom` scale type —
the caller-supplied all-zero custom mask is returned as the all-zero mask
(only `ScaleMapper::setSettings` substitutes the chromatic fallback). -/
theorem scale_mask_totality_counterexample :
    PCE.maskForType ScaleMapper.ScaleType.Custom 0 0 = 0 := rfl

/-- C2 (amended): for every root 0..11, every named (non-Custom) scale type
yields a non-zero mask from both mask builders; `ScaleMapper::getMaskForScale`
is non-zero for Custom too (it ignores the custom mask and returns 0x0FFF),
while `maskForType` returns the custom mask truncated to 12 bits verbatim —
zero when its low 12 bits are zero; and the mapper's active mask after
`setSettings` is always non-zero. -/
theorem scale_mask_totality_amended :
    ∀ root : ℤ, 0 ≤ root → root < 12 →
      (∀ t : ScaleMapper.ScaleType, ScaleMapper.getMaskForScale t root ≠ 0) ∧
      (∀ (t : ScaleMapper.ScaleType) (customMask : ℕ), t ≠ ScaleMapper.ScaleType.Custom →
        PCE.maskForType t root customMask ≠ 0) ∧
      (∀ customMask : ℕ, PCE.maskForType ScaleMapper.ScaleType.Custom root customMask
        = customMask &&& 0x0FFF) ∧
      (∀ s : ScaleMapper.Settings, (ScaleMapper.setSettings s).currentMask ≠ 0) := by
  intro root h1 h2
  refine ⟨?_, ?_, fun _ => rfl, fun s => (ScaleMapper.setSettings_mask s).1⟩
  · interval_cases root <;> intro t <;> cases t <;> decide
  · intro t customMask ht
    cases t <;> simp only [PCE.maskForType] <;> first
      | exact absurd rfl ht
      | decide
      | (interval_cases root <;> decide)

/-- C2 witness: the amended mask-totality theorem applied at root 0, with the
Major scale for both mask builders. -/
theorem scale_mask_totality_witness :
    (0 : ℤ) ≤ 0 ∧ (0 : ℤ) < 12 ∧
    ScaleMapper.getMaskForScale ScaleMapper.ScaleType.Major 0 ≠ 0 ∧
    PCE.maskForType ScaleMapper.ScaleType.Major 0 0 ≠ 0 :=
  ⟨by decide, by decide,
    (scale_mask_totality_amended 0 (by decide) (by decide)).1 ScaleMapper.ScaleType.Major,
    (scale_mask_totality_amended 0 (by decide) (by decide)).2.1 ScaleMapper.ScaleType.Major 0
      (by decide)⟩

/-- C10: the ScaleMapper active mask is non-zero (and 12-bit) from
construction and after every `setSettings`, and for every valid `map` call
on such a state the returned target note lies within 12 semitones of the
rounded transposed input note and its pitch-class bit is set in the active
mask. -/
theorem scale_mapper_snap_invariant :
    ScaleMapper.initState.currentMask ≠ 0 ∧ ScaleMapper.initState.currentMask < 4096 ∧
    (∀ s : ScaleMapper.Settings,
      (ScaleMapper.setSettings s).currentMask ≠ 0 ∧
      (ScaleMapper.setSettings s).currentMask < 4096) ∧
    (∀ (st : ScaleMapper.MapperState) (f : ℝ) (ov : ℤ),
      st.currentMask ≠ 0 → st.currentMask < 4096 → (0 < f ∨ 0 ≤ ov) →
      |(ScaleMapper.map st f ov).targetNoteNumber -
          roundCpp ((if 0 ≤ ov then (ov : ℝ) else ScaleMapper.frequencyToMidi f)
            + (st.settings.transpose : ℝ))| ≤ 12 ∧
      ScaleMapper.inMask st.currentMask (ScaleMapper.map st f ov).targetNoteNumber) := by
  refine ⟨by decide, by decide, ScaleMapper.setSettings_mask, ?_⟩
  intro st f ov hne hlt hva
  have hg : ¬(f ≤ 0 ∧ ov < 0) := by
    intro h
    rcases hva with hf | hov
    · linarith [h.1]
    · omega
  rw [ScaleMapper.map_valid_eq st f ov hg]
  dsimp only
  obtain ⟨hin, hdist, _⟩ := ScaleMapper.snapToScale_spec hne hlt
    ((if 0 ≤ ov then (ov : ℝ) else ScaleMapper.frequencyToMidi f) + (st.settings.transpose : ℝ))
  exact ⟨hdist, hin⟩

/-- C10 witness: the invariant theorem applied to the freshly constructed
mapper (chromatic mask 0x0FFF) at 440 Hz without a MIDI override. -/
theorem scale_mapper_snap_invariant_witness :
    ScaleMapper.initState.currentMask ≠ 0 ∧ ScaleMapper.initState.currentMask < 4096 ∧
    ((0 : ℝ) < 440 ∨ (0 : ℤ) ≤ -1) ∧
    |(ScaleMapper.map ScaleMapper.initState 440 (-1)).targetNoteNumber -
        roundCpp ((if (0 : ℤ) ≤ -1 then ((-1 : ℤ) : ℝ) else ScaleMapper.frequencyToMidi 440)
          + ((ScaleMapper.initState.settings.transpose : ℤ) : ℝ))| ≤ 12 ∧
    ScaleMapper.inMask ScaleMapper.initState.currentMask
      (ScaleMapper.map ScaleMapper.initState 440 (-1)).targetNoteNumber :=
  ⟨by decide, by decide, Or.inl (by norm_num),
    ((scale_mapper_snap_invariant.2.2.2 ScaleMapper.initState 440 (-1)
        (by decide) (by decide) (Or.inl (by norm_num)))).1,
    ((scale_mapper_snap_invariant.2.2.2 ScaleMapper.initState 440 (-1)
        (by decide) (by decide) (Or.inl (by norm_num)))).2⟩

/-! Smoother lemmas for the RetuneEngine ratio-clamp invariant. -/

namespace RetuneEngine

lemma humLo_lt_one : humLo < 1 := by
  unfold humLo
  have h1 : (2 : ℝ) ^ (-(1 : ℝ)/2000) ≤ 1 := by
    apply Real.rpow_le_one_of_one_le_of_nonpos (by norm_num)
    norm_num
  nlinarith [Real.rpow_pos_of_pos (show (0:ℝ) < 2 by norm_num) (-(1 : ℝ)/2000)]

lemma one_lt_humHi : 1 < humHi := by
  unfold humHi
  have h1 : (1 : ℝ) ≤ (2 : ℝ) ^ ((1 : ℝ)/2000) := by
    apply Real.one_le_rpow (by norm_num)
    norm_num
  nlinarith

lemma humLo_le_half : humLo ≤ (0.5 : ℝ) := by
  unfold humLo
  have h1 : (2 : ℝ) ^ (-(1 : ℝ)/2000) ≤ 1 := by
    apply Real.rpow_le_one_of_one_le_of_nonpos (by norm_num)
    norm_num
  nlinarith [Real.rpow_pos_of_pos (show (0:ℝ) < 2 by norm_num) (-(1 : ℝ)/2000)]

lemma two_le_humHi : 2 ≤ humHi := by
  unfold humHi
  have h1 : (1 : ℝ) ≤ (2 : ℝ) ^ ((1 : ℝ)/2000) := by
    apply Real.one_le_rpow (by norm_num)
    norm_num
  nlinarith

lemma humLo_pos : 0 < humLo := by
  unfold humLo
  positivity

lemma convex_mem {lo hi a b t : ℝ} (ha1 : lo ≤ a) (ha2 : a ≤ hi) (hb1 : lo ≤ b) (hb2 : b ≤ hi)
    (ht1 : 0 ≤ t) (ht2 : t ≤ 1) :
    lo ≤ a + (b - a) * t ∧ a + (b - a) * t ≤ hi := by
  constructor <;> nlinarith

lemma smootherInv_setCT {lo hi : ℝ} (s : Smoother) {v : ℝ} (h1 : lo ≤ v) (h2 : v ≤ hi) :
    SmootherInv lo hi (s.setCurrentAndTargetValue v) := by
  unfold SmootherInv Smoother.setCurrentAndTargetValue
  refine ⟨le_refl 0, h1, h2, h1, h2, ?_⟩
  intro h
  exact absurd rfl h

lemma smootherInv_resetSteps {lo hi : ℝ} {s : Smoother} (h : SmootherInv lo hi s) (n : ℤ) :
    SmootherInv lo hi (s.resetSteps n) := by
  obtain ⟨_, _, _, h4, h5, _⟩ := h
  exact smootherInv_setCT _ h4 h5

lemma smootherInv_reset {lo hi : ℝ} {s : Smoother} (h : SmootherInv lo hi s)
    (sr len : ℝ) : SmootherInv lo hi (s.reset sr len) :=
  smootherInv_resetSteps h _

lemma smootherInv_setTarget {lo hi : ℝ} {s : Smoother} (h : SmootherInv lo hi s)
    {v : ℝ} (h1 : lo ≤ v) (h2 : v ≤ hi) :
    SmootherInv lo hi (s.setTargetValue v) := by
  obtain ⟨hc, hl1, hl2, hl3, hl4, heq⟩ := h
  unfold Smoother.setTargetValue
  split
  · exact ⟨hc, hl1, hl2, hl3, hl4, heq⟩
  · split
    · exact smootherInv_setCT _ h1 h2
    next hst =>
      push_neg at hst
      refine ⟨?_, hl1, hl2, h1, h2, ?_⟩
      · dsimp only
        omega
      · intro _
        dsimp only
        have hne : ((s.stepsToTarget : ℤ) : ℝ) ≠ 0 := by
          exact_mod_cast (by omega : s.stepsToTarget ≠ 0)
        field_simp

lemma smootherInv_skip {lo hi : ℝ} {s : Smoother} (h : SmootherInv lo hi s)
    {n : ℤ} (hn : 0 ≤ n) :
    SmootherInv lo hi (s.skip n) ∧ lo ≤ (s.skip n).currentValue ∧ (s.skip n).currentValue ≤ hi := by
  obtain ⟨hc, hl1, hl2, hl3, hl4, heq⟩ := h
  unfold Smoother.skip
  split
  · exact ⟨smootherInv_setCT _ hl3 hl4, hl3, hl4⟩
  next hlt =>
    push_neg at hlt
    have hcne : s.countdown ≠ 0 := by omega
    have hstep := heq hcne
    have hcdpos : (0 : ℝ) < (s.countdown : ℝ) := by exact_mod_cast (by omega : (0:ℤ) < s.countdown)
    have hsval : s.step = (s.target - s.currentValue) / (s.countdown : ℝ) := by
      field_simp at hstep ⊢
      linarith
    have ht1 : (0 : ℝ) ≤ (n : ℝ) / (s.countdown : ℝ) := by
      apply div_nonneg _ (le_of_lt hcdpos)
      exact_mod_cast hn
    have ht2 : (n : ℝ) / (s.countdown : ℝ) ≤ 1 := by
      rw [div_le_one hcdpos]
      exact_mod_cast le_of_lt hlt
    have hval : s.currentValue + s.step * (n : ℝ)
        = s.currentValue + (s.target - s.currentValue) * ((n : ℝ) / (s.countdown : ℝ)) := by
      rw [hsval]
      field_simp
    have hconv := convex_mem hl1 hl2 hl3 hl4 ht1 ht2
    rw [← hval] at hconv
    refine ⟨⟨?_, hconv.1, hconv.2, hl3, hl4, ?_⟩, hconv.1, hconv.2⟩
    · dsimp only
      omega
    · intro _
      dsimp only
      push_cast
      nlinarith [hstep]

lemma jlimit_mem (lo hi v : ℝ) (h : lo ≤ hi) : lo ≤ jlimit lo hi v ∧ jlimit lo hi v ≤ hi := by
  unfold jlimit
  split
  · exact ⟨le_refl lo, h⟩
  · split
    · exact ⟨h, le_refl hi⟩
    next h1 h2 => exact ⟨not_lt.mp h1, not_lt.mp h2⟩

/-- The humanize modulation factor stays within `2^(±1/2000)` for humanize
amounts in `[0, 1]` and RNG draws in `[0, 1]`, so a clamped ratio stays
within `[humLo, humHi]` after humanisation. -/
lemma applyHumanize_mem {st : REState} {ratio rnd : ℝ}
    (hh0 : 0 ≤ st.settings.humanize) (hh1 : st.settings.humanize ≤ 1)
    (hr0 : 0 ≤ rnd) (hr1 : rnd ≤ 1)
    (hrat1 : (0.5 : ℝ) ≤ ratio) (hrat2 : ratio ≤ 2) :
    humLo ≤ (applyHumanize st ratio rnd).1 ∧ (applyHumanize st ratio rnd).1 ≤ humHi := by
  unfold applyHumanize
  split
  · constructor
    · dsimp only
      linarith [humLo_le_half]
    · dsimp only
      linarith [two_le_humHi]
  · dsimp only
    set phase := if 2 * π < st.humanizePhase + 1.5 / st.currentSampleRate * 256
      then st.humanizePhase + 1.5 / st.currentSampleRate * 256 - 2 * π
      else st.humanizePhase + 1.5 / st.currentSampleRate * 256 with hphase
    have hsin1 : -1 ≤ Real.sin phase := Real.neg_one_le_sin phase
    have hsin2 : Real.sin phase ≤ 1 := Real.sin_le_one phase
    set md := (Real.sin phase * 0.005 + (rnd - 0.5) * 0.002) * st.settings.humanize with hmd
    have hmd1 : -(0.006) ≤ md := by
      rw [hmd]
      nlinarith
    have hmd2 : md ≤ 0.006 := by
      rw [hmd]
      nlinarith
    have hexp1 : -(1:ℝ)/2000 ≤ md / 12 := by linarith
    have hexp2 : md / 12 ≤ (1:ℝ)/2000 := by linarith
    have hpow1 : (2 : ℝ) ^ (-(1:ℝ)/2000) ≤ (2 : ℝ) ^ (md / 12) :=
      Real.rpow_le_rpow_left_iff (by norm_num) |>.mpr hexp1
    have hpow2 : (2 : ℝ) ^ (md / 12) ≤ (2 : ℝ) ^ ((1:ℝ)/2000) :=
      Real.rpow_le_rpow_left_iff (by norm_num) |>.mpr hexp2
    have hpowpos : (0 : ℝ) < (2 : ℝ) ^ (md / 12) :=
      Real.rpow_pos_of_pos (by norm_num) _
    have hlopos : (0 : ℝ) < (2 : ℝ) ^ (-(1:ℝ)/2000) :=
      Real.rpow_pos_of_pos (by norm_num) _
    constructor
    · unfold humLo
      nlinarith
    · unfold humHi
      nlinarith

end RetuneEngine

namespace RetuneEngine

lemma detectNT_fields (st : REState) (t : ℝ) :
    (detectNoteTransition st t).2.ratioSmoother = st.ratioSmoother ∧
    (detectNoteTransition st t).2.lastRatio = st.lastRatio ∧
    (detectNoteTransition st t).2.settings = st.settings ∧
    (detectNoteTransition st t).2.currentSampleRate = st.currentSampleRate ∧
    (detectNoteTransition st t).2.humanizePhase = st.humanizePhase := by
  unfold detectNoteTransition
  split
  · exact ⟨rfl, rfl, rfl, rfl, rfl⟩
  · dsimp only
    split
    · exact ⟨rfl, rfl, rfl, rfl, rfl⟩
    · split <;> exact ⟨rfl, rfl, rfl, rfl, rfl⟩

lemma applyHumanize_fields (st : REState) (r rnd : ℝ) :
    (applyHumanize st r rnd).2.ratioSmoother = st.ratioSmoother ∧
    (applyHumanize st r rnd).2.lastRatio = st.lastRatio ∧
    (applyHumanize st r rnd).2.settings = st.settings ∧
    (applyHumanize st r rnd).2.currentSampleRate = st.currentSampleRate := by
  unfold applyHumanize
  split
  · exact ⟨rfl, rfl, rfl, rfl⟩
  · exact ⟨rfl, rfl, rfl, rfl⟩

lemma smoother_stage {lo hi : ℝ} {sm : Smoother} (hinv : SmootherInv lo hi sm)
    {v : ℝ} (hv1 : lo ≤ v) (hv2 : v ≤ hi) (sr len : ℝ) {n : ℤ} (hn : 0 ≤ n) :
    SmootherInv lo hi (((sm.reset sr len).setTargetValue v).skip n) ∧
    lo ≤ (((sm.reset sr len).setTargetValue v).skip n).currentValue ∧
    (((sm.reset sr len).setTargetValue v).skip n).currentValue ≤ hi :=
  smootherInv_skip (smootherInv_setTarget (smootherInv_reset hinv sr len) hv1 hv2) hn

end RetuneEngine

/-- C1 (amended): the pitch ratio returned by `RetuneEngine::process` always
lies in `[0.5 * 2^(-1/2000), 2 * 2^(1/2000)]` — the interval `[0.5, 2.0]`
widened by the worst-case humanize modulation factor of 0.6 cents — for every
reachable engine state (after `reset`/`prepare`/`setSettings`), any
detected/target frequency pair, humanize in `[0, 1]`, any RNG draw in
`[0, 1]` and positive block size; this bound also covers the held-last-ratio
value returned on invalid-frequency calls. -/
theorem retune_ratio_clamp_amended :
    (∀ st : RetuneEngine.REState,
      RetuneEngine.REInv RetuneEngine.humLo RetuneEngine.humHi (RetuneEngine.reset st)) ∧
    (∀ (st : RetuneEngine.REState) (sr : ℝ),
      RetuneEngine.REInv RetuneEngine.humLo RetuneEngine.humHi (RetuneEngine.prepare st sr)) ∧
    (∀ (st : RetuneEngine.REState) (s : RetuneEngine.RSettings),
      RetuneEngine.REInv RetuneEngine.humLo RetuneEngine.humHi st →
      RetuneEngine.REInv RetuneEngine.humLo RetuneEngine.humHi (RetuneEngine.setSettings st s)) ∧
    (∀ (st : RetuneEngine.REState) (d t : ℝ) (n : ℤ) (rnd : ℝ),
      RetuneEngine.REInv RetuneEngine.humLo RetuneEngine.humHi st →
      0 ≤ st.settings.humanize → st.settings.humanize ≤ 1 →
      0 ≤ rnd → rnd ≤ 1 → 1 ≤ n →
      RetuneEngine.humLo ≤ (RetuneEngine.process st d t n rnd).1 ∧
      (RetuneEngine.process st d t n rnd).1 ≤ RetuneEngine.humHi ∧
      RetuneEngine.REInv RetuneEngine.humLo RetuneEngine.humHi
        (RetuneEngine.process st d t n rnd).2) := by
  have hone1 : RetuneEngine.humLo ≤ 1 := le_of_lt RetuneEngine.humLo_lt_one
  have hone2 : (1 : ℝ) ≤ RetuneEngine.humHi := le_of_lt RetuneEngine.one_lt_humHi
  have hreset : ∀ st : RetuneEngine.REState,
      RetuneEngine.REInv RetuneEngine.humLo RetuneEngine.humHi (RetuneEngine.reset st) := by
    intro st
    refine ⟨?_, hone1, hone2⟩
    exact RetuneEngine.smootherInv_setCT _ hone1 hone2
  refine ⟨hreset, ?_, ?_, ?_⟩
  · intro st sr
    exact hreset _
  · intro st s hinv
    exact ⟨RetuneEngine.smootherInv_reset hinv.1 _ _, hinv.2.1, hinv.2.2⟩
  · intro st d t n rnd hinv hh0 hh1 hr0 hr1 hn1
    have hn0 : (0 : ℤ) ≤ n := by omega
    by_cases hv : d ≤ 0 ∨ t ≤ 0
    · simp only [RetuneEngine.process, if_pos hv]
      rw [if_pos (by omega : (0 : ℤ) < n)]
      dsimp only
      obtain ⟨hsk, hc1, hc2⟩ := RetuneEngine.smootherInv_skip hinv.1 hn0
      exact ⟨hinv.2.1, hinv.2.2, hsk, hinv.2.1, hinv.2.2⟩
    · simp only [RetuneEngine.process, if_neg hv]
      obtain ⟨e1, e2, e3, e4, e5⟩ := RetuneEngine.detectNT_fields st t
      have hjl := RetuneEngine.jlimit_mem 0.5 2
        (RetuneEngine.applyVibratoTracking (RetuneEngine.detectNoteTransition st t).2 d t / d)
        (by norm_num)
      set st1 := (RetuneEngine.detectNoteTransition st t).2 with hst1
      set ratio1 := jlimit 0.5 2 (RetuneEngine.applyVibratoTracking st1 d t / d) with hratio1
      have hhz : RetuneEngine.humLo ≤
            (if 0 < st1.settings.humanize
              then RetuneEngine.applyHumanize st1 ratio1 rnd else (ratio1, st1)).1 ∧
          (if 0 < st1.settings.humanize
              then RetuneEngine.applyHumanize st1 ratio1 rnd else (ratio1, st1)).1
            ≤ RetuneEngine.humHi := by
        split
        · apply RetuneEngine.applyHumanize_mem
          · rw [e3]; exact hh0
          · rw [e3]; exact hh1
          · exact hr0
          · exact hr1
          · exact hjl.1
          · exact hjl.2
        · exact ⟨le_trans RetuneEngine.humLo_le_half hjl.1,
            le_trans hjl.2 RetuneEngine.two_le_humHi⟩
      set hz := if 0 < st1.settings.humanize
        then RetuneEngine.applyHumanize st1 ratio1 rnd else (ratio1, st1) with hhzdef
      have hzsm : hz.2.ratioSmoother = st.ratioSmoother := by
        rw [hhzdef]
        split
        · rw [(RetuneEngine.applyHumanize_fields st1 ratio1 rnd).1, e1]
        · exact e1
      have hsminv : RetuneEngine.SmootherInv RetuneEngine.humLo RetuneEngine.humHi
          hz.2.ratioSmoother := by
        rw [hzsm]; exact hinv.1
      split
      · obtain ⟨ha, hb, hc⟩ := RetuneEngine.smoother_stage hsminv hhz.1 hhz.2
          hz.2.currentSampleRate (jmap hz.2.settings.noteTransition 0 1 0.005 0.15) hn0
        exact ⟨hb, hc, ha, hb, hc⟩
      · obtain ⟨ha, hb, hc⟩ := RetuneEngine.smoother_stage hsminv hhz.1 hhz.2
          hz.2.currentSampleRate (max 0.001 (hz.2.settings.retuneSpeedMs / 1000)) hn0
        exact ⟨hb, hc, ha, hb, hc⟩

/-- C1 witness: the amended clamp theorem applied to the freshly prepared
engine (44100 Hz, default settings: humanize 0) with a valid 220 Hz → 440 Hz
block of 64 samples and RNG draw 0. -/
theorem retune_ratio_clamp_witness :
    RetuneEngine.REInv RetuneEngine.humLo RetuneEngine.humHi
      (RetuneEngine.prepare RetuneEngine.initState 44100) ∧
    0 ≤ (RetuneEngine.prepare RetuneEngine.initState 44100).settings.humanize ∧
    (RetuneEngine.prepare RetuneEngine.initState 44100).settings.humanize ≤ 1 ∧
    (0 : ℝ) ≤ 0 ∧ (0 : ℝ) ≤ 1 ∧ (1 : ℤ) ≤ 64 ∧
    (RetuneEngine.humLo ≤
      (RetuneEngine.process (RetuneEngine.prepare RetuneEngine.initState 44100)
        220 440 64 0).1 ∧
     (RetuneEngine.process (RetuneEngine.prepare RetuneEngine.initState 44100)
        220 440 64 0).1 ≤ RetuneEngine.humHi) := by
  have hprep := retune_ratio_clamp_amended.2.1 RetuneEngine.initState 44100
  have hh0 : (0 : ℝ) ≤ (RetuneEngine.prepare RetuneEngine.initState 44100).settings.humanize := by
    show (0 : ℝ) ≤ 0
    norm_num
  have hh1 : (RetuneEngine.prepare RetuneEngine.initState 44100).settings.humanize ≤ 1 := by
    show (0 : ℝ) ≤ 1
    norm_num
  have hmain := retune_ratio_clamp_amended.2.2.2
    (RetuneEngine.prepare RetuneEngine.initState 44100) 220 440 64 0
    hprep hh0 hh1 (by norm_num) (by norm_num) (by norm_num)
  exact ⟨hprep, hh0, hh1, by norm_num, by norm_num, by norm_num, hmain.1, hmain.2.1⟩

/-- C6: on an invalid detected/target frequency, `RetuneEngine::process`
returns exactly the held last ratio and leaves the held last-ratio state
unchanged; `reset` re-initialises the held ratio to 1. -/
theorem retune_hold_last_ratio :
    ∀ (st : RetuneEngine.REState) (d t : ℝ) (n : ℤ) (rnd : ℝ),
      (d ≤ 0 ∨ t ≤ 0) →
      (RetuneEngine.process st d t n rnd).1 = st.lastRatio ∧
      (RetuneEngine.process st d t n rnd).2.lastRatio = st.lastRatio ∧
      (RetuneEngine.reset st).lastRatio = 1 := by
  intro st d t n rnd h
  simp only [RetuneEngine.process, if_pos h]
  split
  · exact ⟨rfl, rfl, rfl⟩
  · exact ⟨rfl, rfl, rfl⟩

/-- C6 witness: the hold-last-ratio theorem applied to the freshly prepared
engine and an unvoiced block (detected frequency 0). -/
theorem retune_hold_last_ratio_witness :
    ((0 : ℝ) ≤ 0 ∨ (440 : ℝ) ≤ 0) ∧
    (RetuneEngine.process (RetuneEngine.prepare RetuneEngine.initState 44100)
        0 440 64 0).1
      = (RetuneEngine.prepare RetuneEngine.initState 44100).lastRatio ∧
    (RetuneEngine.prepare RetuneEngine.initState 44100).lastRatio = 1 :=
  ⟨Or.inl (by norm_num),
    (retune_hold_last_ratio (RetuneEngine.prepare RetuneEngine.initState 44100)
      0 440 64 0 (Or.inl (by norm_num))).1,
    rfl⟩

/-- C1: the claim as stated is false — `RetuneEngine::process` clamps the
ratio to [0.5, 2.0] *before* applying the humanize modulation, so with
humanize = 1, detected 220 Hz and target 440 Hz (clamped ratio exactly 2.0),
a favourable LFO phase and RNG draw 0.9, and a block long enough for the
ramp to complete, the returned smoothed ratio strictly exceeds 2.0. -/
theorem retune_ratio_clamp_counterexample :
    2 < (RetuneEngine.process
      (RetuneEngine.setSettings (RetuneEngine.prepare RetuneEngine.initState 44100)
        { retuneSpeedMs := 20, vibratoTracking := 0, humanize := 1, noteTransition := 0.2 })
      220 440 1000 (9/10)).1 := by
  set st1 := RetuneEngine.setSettings (RetuneEngine.prepare RetuneEngine.initState 44100)
    { retuneSpeedMs := 20, vibratoTracking := 0, humanize := 1, noteTransition := 0.2 } with hst1
  -- the concrete smoother state after prepare + setSettings
  have hmax : max (0.001 : ℝ) (20/1000) = 0.02 := by norm_num
  have hfloor : ⌊(max (0.001 : ℝ) (20/1000)) * 44100⌋ = (882 : ℤ) := by
    rw [hmax, show (0.02 : ℝ) * 44100 = ((882 : ℤ) : ℝ) by norm_num, Int.floor_intCast]
  have hsm : st1.ratioSmoother = ⟨1, 1, 0, 0, 882⟩ := by
    rw [hst1]
    simp only [RetuneEngine.setSettings, RetuneEngine.prepare, RetuneEngine.reset,
      RetuneEngine.initState, RetuneEngine.initSmoother, RetuneEngine.Smoother.reset,
      RetuneEngine.Smoother.resetSteps, RetuneEngine.Smoother.setCurrentAndTargetValue]
    rw [hfloor]
  have hsettings : st1.settings =
      { retuneSpeedMs := 20, vibratoTracking := 0, humanize := 1, noteTransition := 0.2 } := rfl
  have hnote : st1.lastTargetNote = -1 := rfl
  have hphase : st1.humanizePhase = 0 := rfl
  have hsr : st1.currentSampleRate = 44100 := rfl
  -- the sine of the humanize LFO phase after one step is positive
  have hpi : (3 : ℝ) < π := Real.pi_gt_three
  have hsin : 0 < Real.sin ((0 : ℝ) + 1.5 / 44100 * 256) := by
    apply Real.sin_pos_of_pos_of_lt_pi
    · norm_num
    · nlinarith
  set E := (Real.sin ((0 : ℝ) + 1.5 / 44100 * 256) * 0.005 + ((9/10 : ℝ) - 0.5) * 0.002) * 1 / 12
    with hE
  have hEpos : 0 < E := by
    rw [hE]
    nlinarith
  have hEr : (1 : ℝ) < (2 : ℝ) ^ E :=
    (Real.one_lt_rpow_iff_of_pos (by norm_num)).mpr (Or.inl ⟨by norm_num, hEpos⟩)
  have hgt1 : (1 : ℝ) < 2 * (2 : ℝ) ^ E := by nlinarith
  -- first call after reset: the note transition detector records the note, returns 0
  have hf2m : RetuneEngine.frequencyToMidi 440 = 69 := by
    unfold RetuneEngine.frequencyToMidi
    rw [if_neg (by norm_num)]
    norm_num [Real.logb_self_eq_one]
  have hround69 : roundCpp (69 : ℝ) = 69 := by
    rw [show (69 : ℝ) = ((69 : ℤ) : ℝ) by norm_num]
    exact roundCpp_intCast 69
  have htr : RetuneEngine.detectNoteTransition st1 440 =
      (0, { st1 with lastTargetNote := 69 }) := by
    unfold RetuneEngine.detectNoteTransition
    rw [if_neg (by norm_num : ¬(440 : ℝ) ≤ 0)]
    rw [hf2m, hround69]
    rw [if_pos (by rw [hnote]; norm_num : st1.lastTargetNote < 0)]
  -- vibrato tracking is disabled (0 ≤ 0.01): the target passes through
  have hvt : RetuneEngine.applyVibratoTracking ({ st1 with lastTargetNote := 69 }) 220 440
      = 440 := by
    unfold RetuneEngine.applyVibratoTracking
    rw [if_pos]
    show st1.settings.vibratoTracking ≤ 0.01
    rw [hsettings]
    norm_num
  have hjl2 : jlimit 0.5 2 ((440 : ℝ) / 220) = 2 := by
    unfold jlimit
    norm_num
  -- the humanize step multiplies the clamped ratio 2 by 2^E
  have hhum : RetuneEngine.applyHumanize ({ st1 with lastTargetNote := 69 }) 2 (9/10)
      = (2 * (2 : ℝ) ^ E,
         { st1 with lastTargetNote := 69, humanizePhase := (0 : ℝ) + 1.5 / 44100 * 256 }) := by
    unfold RetuneEngine.applyHumanize
    rw [if_neg (by
      show ¬st1.settings.humanize ≤ 0.01
      rw [hsettings]
      norm_num)]
    have hph : ({ st1 with lastTargetNote := 69 } : RetuneEngine.REState).humanizePhase = 0 :=
      hphase
    have hcsr : ({ st1 with lastTargetNote := 69 } : RetuneEngine.REState).currentSampleRate
        = 44100 := hsr
    rw [hph, hcsr]
    dsimp only
    rw [if_neg (by nlinarith : ¬(2 * π < (0 : ℝ) + 1.5 / 44100 * 256))]
    have hhm : ({ st1 with lastTargetNote := 69 } : RetuneEngine.REState).settings.humanize
        = 1 := by
      show st1.settings.humanize = 1
      rw [hsettings]
    rw [hhm, hE]
  have hvalid : ¬((220 : ℝ) ≤ 0 ∨ (440 : ℝ) ≤ 0) := by norm_num
  simp only [RetuneEngine.process, if_neg hvalid]
  rw [htr]
  dsimp only
  rw [hvt, hjl2]
  rw [if_pos (show (0 : ℝ) <
    ({ st1 with lastTargetNote := 69 } : RetuneEngine.REState).settings.humanize by
      show (0 : ℝ) < st1.settings.humanize
      rw [hsettings]
      norm_num)]
  rw [hhum]
  dsimp only
  rw [if_neg (by norm_num : ¬(0.5 : ℝ) < 0)]
  have hsm2 : ({ st1 with lastTargetNote := 69, humanizePhase := (0 : ℝ) + 1.5 / 44100 * 256 } :
      RetuneEngine.REState).ratioSmoother = st1.ratioSmoother := rfl
  have hcsr2 : ({ st1 with lastTargetNote := 69, humanizePhase := (0 : ℝ) + 1.5 / 44100 * 256 } :
      RetuneEngine.REState).currentSampleRate = 44100 := hsr
  have hrs2 : ({ st1 with lastTargetNote := 69, humanizePhase := (0 : ℝ) + 1.5 / 44100 * 256 } :
      RetuneEngine.REState).settings.retuneSpeedMs = 20 := by
    show st1.settings.retuneSpeedMs = 20
    rw [hsettings]
  rw [hsm2, hcsr2, hrs2, hsm]
  have hrst : RetuneEngine.Smoother.reset ⟨1, 1, 0, 0, 882⟩ 44100 (max 0.001 (20 / 1000))
      = (⟨1, 1, 0, 0, 882⟩ : RetuneEngine.Smoother) := by
    unfold RetuneEngine.Smoother.reset RetuneEngine.Smoother.resetSteps
      RetuneEngine.Smoother.setCurrentAndTargetValue
    rw [hfloor]
  rw [hrst]
  have hne1 : ¬(2 * (2 : ℝ) ^ E = ((⟨1, 1, 0, 0, 882⟩ : RetuneEngine.Smoother)).target) := by
    dsimp only
    nlinarith
  have hstv : RetuneEngine.Smoother.setTargetValue ⟨1, 1, 0, 0, 882⟩ (2 * (2 : ℝ) ^ E)
      = (⟨1, 2 * (2 : ℝ) ^ E, (2 * (2 : ℝ) ^ E - 1) / 882, 882, 882⟩ :
          RetuneEngine.Smoother) := by
    unfold RetuneEngine.Smoother.setTargetValue
    rw [if_neg hne1]
    rw [if_neg (show ¬((⟨1, 1, 0, 0, 882⟩ : RetuneEngine.Smoother)).stepsToTarget ≤ 0
      by norm_num)]
    dsimp only
    norm_num
  rw [hstv]
  have hskip : RetuneEngine.Smoother.skip
      (⟨1, 2 * (2 : ℝ) ^ E, (2 * (2 : ℝ) ^ E - 1) / 882, 882, 882⟩ : RetuneEngine.Smoother)
      1000
      = (⟨2 * (2 : ℝ) ^ E, 2 * (2 : ℝ) ^ E, (2 * (2 : ℝ) ^ E - 1) / 882, 0, 882⟩ :
          RetuneEngine.Smoother) := by
    unfold RetuneEngine.Smoother.skip RetuneEngine.Smoother.setCurrentAndTargetValue
    rw [if_pos (show ((⟨1, 2 * (2 : ℝ) ^ E, (2 * (2 : ℝ) ^ E - 1) / 882, 882, 882⟩ :
      RetuneEngine.Smoother)).countdown ≤ 1000 by norm_num)]
  rw [hskip]
  dsimp only
  nlinarith

/-- C4: on an unvoiced block (`detectedPeriod ≤ 0` or `confidence < 0.2`)
`PsolaShifter::process` copies the input verbatim to the output and resets
the grain queue, the smoothed period, the grain phase and the input read
position (to its -1 sentinel), so no stale grains survive into the next
voiced onset. -/
theorem psola_unvoiced_passthrough :
    ∀ (s : Psola.State) (input : List ℝ) (pitchRatio detectedPeriod confidence : ℝ),
      input ≠ [] →
      (detectedPeriod ≤ 0 ∨ confidence < 0.2) →
      (Psola.process s input pitchRatio detectedPeriod confidence).1 = input ∧
      (Psola.process s input pitchRatio detectedPeriod confidence).2.activeGrains = [] ∧
      (Psola.process s input pitchRatio detectedPeriod confidence).2.lastPeriod = 0 ∧
      (Psola.process s input pitchRatio detectedPeriod confidence).2.grainPhase = 0 ∧
      (Psola.process s input pitchRatio detectedPeriod confidence).2.inputReadPosition = -1 := by
  intro s input pr dp c hne hunv
  have hlen : ¬((input.length : ℤ) ≤ 0) := by
    have : input.length ≠ 0 := fun h => hne (List.eq_nil_of_length_eq_zero h)
    omega
  simp only [Psola.process, if_neg hlen, if_pos hunv]
  simp

/-- C4 witness: the passthrough theorem applied to a freshly prepared
shifter (44100 Hz, block size 8) with a non-trivial 4-sample block and
confidence 0 (unvoiced). -/
theorem psola_unvoiced_passthrough_witness :
    ([(1 : ℝ), 2, 3, 4] ≠ ([] : List ℝ)) ∧ ((0 : ℝ) ≤ 0 ∨ (0 : ℝ) < 0.2) ∧
    (Psola.process (Psola.prepare Psola.initState 44100 8) [(1 : ℝ), 2, 3, 4]
        1.5 0 0).1 = [(1 : ℝ), 2, 3, 4] ∧
    (Psola.process (Psola.prepare Psola.initState 44100 8) [(1 : ℝ), 2, 3, 4]
        1.5 0 0).2.activeGrains = [] :=
  ⟨by simp, Or.inl (by norm_num),
    (psola_unvoiced_passthrough (Psola.prepare Psola.initState 44100 8)
      [(1 : ℝ), 2, 3, 4] 1.5 0 0 (by simp) (Or.inl (by norm_num))).1,
    (psola_unvoiced_passthrough (Psola.prepare Psola.initState 44100 8)
      [(1 : ℝ), 2, 3, 4] 1.5 0 0 (by simp) (Or.inl (by norm_num))).2.1⟩

/-- C5: after `prepare (sampleRate, maxBlockSize)` the reported latency is
exactly twice the period (in samples) of the 50 Hz minimum frequency — the
maximum supported pitch period — and neither `process` (with any pitch
ratio) nor `reset` ever changes it. -/
theorem psola_latency_spec :
    ∀ (s : Psola.State) (sampleRate : ℝ) (maxBlockSize : ℤ),
      (Psola.prepare s sampleRate maxBlockSize).latencySamples
        = truncR (sampleRate / 50) * 2 ∧
      (∀ (input : List ℝ) (pitchRatio detectedPeriod confidence : ℝ),
        (Psola.process s input pitchRatio detectedPeriod confidence).2.latencySamples
          = s.latencySamples) ∧
      (Psola.reset s).latencySamples = s.latencySamples := by
  intro s sr mbs
  refine ⟨rfl, ?_, rfl⟩
  intro input pr dp c
  simp only [Psola.process]
  split
  · rfl
  · split
    · rfl
    · rfl

/-! Sum characterisation of the detector's decision-statistic loop. -/

namespace PD

lemma foldl_pair_sum (f g : ℕ → ℝ) (P : ℕ → Prop) [DecidablePred P] :
    ∀ (l : List ℕ) (x y : ℝ),
      l.foldl (fun (a : ℝ × ℝ) i => (a.1 + f i, if P i then a.2 + g i else a.2)) (x, y)
        = (x + (l.map f).sum, y + (l.map (fun i => if P i then g i else 0)).sum) := by
  intro l
  induction l with
  | nil =>
    intro x y
    simp
  | cons a l ih =>
    intro x y
    rw [List.foldl_cons]
    dsimp only
    rw [ih]
    by_cases h : P a <;> simp only [h, if_pos, if_neg, if_true, if_false, List.map_cons,
      List.sum_cons, Prod.mk.injEq, not_false_iff] <;> constructor <;> ring

lemma sum_map_range (f : ℕ → ℝ) (k : ℕ) :
    ((List.range k).map f).sum = ∑ i in Finset.range k, f i := by
  induction k with
  | zero => simp
  | succ m ih => rw [List.range_succ, List.map_append, List.sum_append,
      Finset.sum_range_succ, ih]; simp

end PD

/-- C9: for every lag with `0 < lag` and `2*lag < dataSize`,
`PitchDetector::evaluatePeriod` computes, over the two-period window of the
last `2*lag` samples, the energy as the sum of squared samples, the
cross-correlation as the sum of `x[n]*x[n-lag]` restricted to the indices
whose lagged partner also lies in the window (i.e. the last `lag` samples),
and the decision statistic `V = E - 2H`; degenerate lags give the all-zero
score. -/
theorem evaluate_period_spec :
    ∀ (data : List ℝ) (lag : ℤ),
      (0 < lag → 2 * lag < (data.length : ℤ) →
        (PD.evaluatePeriod data lag).E
            = (∑ i in Finset.range (2 * lag).toNat,
                data.getD ((data.length : ℤ) - 2 * lag + i).toNat 0
                  * data.getD ((data.length : ℤ) - 2 * lag + i).toNat 0) ∧
        (PD.evaluatePeriod data lag).H
            = (∑ i in Finset.range lag.toNat,
                data.getD ((data.length : ℤ) - lag + i).toNat 0
                  * data.getD ((data.length : ℤ) - 2 * lag + i).toNat 0) ∧
        (PD.evaluatePeriod data lag).V
            = (PD.evaluatePeriod data lag).E - 2 * (PD.evaluatePeriod data lag).H) ∧
      ((lag ≤ 0 ∨ (data.length : ℤ) ≤ lag * 2) →
        PD.evaluatePeriod data lag = { E := 0, H := 0, V := 0 }) := by
  intro data lag
  constructor
  · intro hpos hlt
    have hguard : ¬(lag ≤ 0 ∨ (data.length : ℤ) ≤ lag * 2) := by
      push_neg
      omega
    unfold PD.evaluatePeriod
    rw [if_neg hguard]
    dsimp only
    have hws : max 0 ((data.length : ℤ) - lag * 2) = (data.length : ℤ) - lag * 2 := by omega
    rw [hws]
    have hcount : ((data.length : ℤ) - ((data.length : ℤ) - lag * 2)).toNat = (2 * lag).toNat := by
      omega
    rw [hcount]
    set ws : ℤ := (data.length : ℤ) - lag * 2 with hwsdef
    have hfold := PD.foldl_pair_sum
      (fun i => data.getD (ws + (i : ℤ)).toNat 0 * data.getD (ws + (i : ℤ)).toNat 0)
      (fun i => data.getD (ws + (i : ℤ)).toNat 0 * data.getD ((ws + (i : ℤ)) - lag).toNat 0)
      (fun i => ws ≤ (ws + (i : ℤ)) - lag)
      (List.range (2 * lag).toNat) 0 0
    rw [hfold]
    dsimp only
    rw [PD.sum_map_range, PD.sum_map_range]
    have hE : (0 : ℝ) + (∑ i in Finset.range (2 * lag).toNat,
        data.getD (ws + (i : ℤ)).toNat 0 * data.getD (ws + (i : ℤ)).toNat 0)
        = ∑ i in Finset.range (2 * lag).toNat,
            data.getD ((data.length : ℤ) - 2 * lag + i).toNat 0
              * data.getD ((data.length : ℤ) - 2 * lag + i).toNat 0 := by
      rw [zero_add]
      apply Finset.sum_congr rfl
      intro i _
      rw [show ws + (i : ℤ) = (data.length : ℤ) - 2 * lag + i by rw [hwsdef]; ring]
    have hH : (0 : ℝ) + (∑ i in Finset.range (2 * lag).toNat,
          if ws ≤ (ws + (i : ℤ)) - lag
            then data.getD (ws + (i : ℤ)).toNat 0 * data.getD ((ws + (i : ℤ)) - lag).toNat 0
            else 0)
        = ∑ i in Finset.range lag.toNat,
            data.getD ((data.length : ℤ) - lag + i).toNat 0
              * data.getD ((data.length : ℤ) - 2 * lag + i).toNat 0 := by
      rw [zero_add]
      have hsplit : Finset.range (2 * lag).toNat
          = Finset.Ico 0 (2 * lag).toNat := by
        rw [Finset.range_eq_Ico]
      rw [hsplit, ← Finset.sum_Ico_consecutive _
        (by omega : (0 : ℕ) ≤ lag.toNat) (by omega : lag.toNat ≤ (2 * lag).toNat)]
      have hzero : (∑ i in Finset.Ico 0 lag.toNat,
          if ws ≤ (ws + (i : ℤ)) - lag
            then data.getD (ws + (i : ℤ)).toNat 0 * data.getD ((ws + (i : ℤ)) - lag).toNat 0
            else 0) = 0 := by
        apply Finset.sum_eq_zero
        intro i hi
        rw [Finset.mem_Ico] at hi
        rw [if_neg (by omega : ¬ws ≤ (ws + (i : ℤ)) - lag)]
      rw [hzero, zero_add]
      rw [Finset.sum_Ico_eq_sum_range]
      apply Finset.sum_congr (by congr 1; omega)
      intro i hi
      rw [Finset.mem_range] at hi
      rw [if_pos (by omega : ws ≤ (ws + ((lag.toNat + i : ℕ) : ℤ)) - lag)]
      congr 1
      · congr 1
        omega
      · congr 1
        omega
    exact ⟨hE, hH, rfl⟩
  · intro h
    unfold PD.evaluatePeriod
    rw [if_pos h]

/-- C9 witness: the specification applied at the concrete frame
`[1, 2, 3, 4]` with lag 1 (window = the last two samples). -/
theorem evaluate_period_spec_witness :
    (0 : ℤ) < 1 ∧ 2 * (1 : ℤ) < (([(1 : ℝ), 2, 3, 4]).length : ℤ) ∧
    (PD.evaluatePeriod [(1 : ℝ), 2, 3, 4] 1).E
        = (∑ i in Finset.range (2 * (1 : ℤ)).toNat,
            ([(1 : ℝ), 2, 3, 4]).getD ((([(1 : ℝ), 2, 3, 4]).length : ℤ) - 2 * 1 + i).toNat 0
              * ([(1 : ℝ), 2, 3, 4]).getD ((([(1 : ℝ), 2, 3, 4]).length : ℤ) - 2 * 1 + i).toNat 0) :=
  ⟨by norm_num, by norm_num,
    ((evaluate_period_spec [(1 : ℝ), 2, 3, 4] 1).1 (by norm_num) (by norm_num)).1⟩

/-! Characterisation of the skip-and-minimise candidate fold shared by the
coarse and fine searches. -/

namespace PD

lemma searchStep_eq (data : List ℝ) (acc : ℤ × ℝ) (lag : ℤ) :
    (let score := evaluatePeriod data lag
     if score.E < 1e-9 then acc
     else
       let ratio := score.V / score.E
       if ratio < acc.2 then (lag, ratio) else acc)
    = if (evaluatePeriod data lag).E < 1e-9 then acc
      else if (evaluatePeriod data lag).V / (evaluatePeriod data lag).E < acc.2
        then (lag, (evaluatePeriod data lag).V / (evaluatePeriod data lag).E) else acc := rfl

lemma searchFold_snd_le (data : List ℝ) (l : List ℤ) :
    ∀ acc : ℤ × ℝ,
      (l.foldl (fun (acc : ℤ × ℝ) lag =>
        let score := evaluatePeriod data lag
        if score.E < 1e-9 then acc
        else
          let ratio := score.V / score.E
          if ratio < acc.2 then (lag, ratio) else acc) acc).2 ≤ acc.2 := by
  induction l with
  | nil => intro acc; exact le_refl _
  | cons a l ih =>
    intro acc
    rw [List.foldl_cons]
    refine le_trans (ih _) ?_
    rw [searchStep_eq]
    split
    · exact le_refl _
    · split
      next h2 => exact le_of_lt h2
      · exact le_refl _

lemma searchFold_min (data : List ℝ) (l : List ℤ) :
    ∀ (acc : ℤ × ℝ) (lag : ℤ), lag ∈ l → 1e-9 ≤ (evaluatePeriod data lag).E →
      (l.foldl (fun (acc : ℤ × ℝ) lag =>
        let score := evaluatePeriod data lag
        if score.E < 1e-9 then acc
        else
          let ratio := score.V / score.E
          if ratio < acc.2 then (lag, ratio) else acc) acc).2
        ≤ (evaluatePeriod data lag).V / (evaluatePeriod data lag).E := by
  induction l with
  | nil => intro acc lag h; exact absurd h (by simp)
  | cons a l ih =>
    intro acc lag hmem hE
    rw [List.foldl_cons]
    rcases List.mem_cons.mp hmem with rfl | hmem2
    · refine le_trans (searchFold_snd_le data l _) ?_
      rw [searchStep_eq]
      rw [if_neg (not_lt.mpr hE)]
      split
      next h2 => exact le_refl _
      next h2 => exact not_lt.mp h2
    · exact ih _ lag hmem2 hE

lemma searchFold_cases (data : List ℝ) (l : List ℤ) :
    ∀ acc : ℤ × ℝ,
      (l.foldl (fun (acc : ℤ × ℝ) lag =>
        let score := evaluatePeriod data lag
        if score.E < 1e-9 then acc
        else
          let ratio := score.V / score.E
          if ratio < acc.2 then (lag, ratio) else acc) acc) = acc ∨
      (((l.foldl (fun (acc : ℤ × ℝ) lag =>
        let score := evaluatePeriod data lag
        if score.E < 1e-9 then acc
        else
          let ratio := score.V / score.E
          if ratio < acc.2 then (lag, ratio) else acc) acc)).1 ∈ l ∧
        1e-9 ≤ (evaluatePeriod data ((l.foldl (fun (acc : ℤ × ℝ) lag =>
          let score := evaluatePeriod data lag
          if score.E < 1e-9 then acc
          else
            let ratio := score.V / score.E
            if ratio < acc.2 then (lag, ratio) else acc) acc)).1).E ∧
        ((l.foldl (fun (acc : ℤ × ℝ) lag =>
          let score := evaluatePeriod data lag
          if score.E < 1e-9 then acc
          else
            let ratio := score.V / score.E
            if ratio < acc.2 then (lag, ratio) else acc) acc)).2
          = (evaluatePeriod data ((l.foldl (fun (acc : ℤ × ℝ) lag =>
              let score := evaluatePeriod data lag
              if score.E < 1e-9 then acc
              else
                let ratio := score.V / score.E
                if ratio < acc.2 then (lag, ratio) else acc) acc)).1).V
            / (evaluatePeriod data ((l.foldl (fun (acc : ℤ × ℝ) lag =>
              let score := evaluatePeriod data lag
              if score.E < 1e-9 then acc
              else
                let ratio := score.V / score.E
                if ratio < acc.2 then (lag, ratio) else acc) acc)).1).E ∧
        ((l.foldl (fun (acc : ℤ × ℝ) lag =>
          let score := evaluatePeriod data lag
          if score.E < 1e-9 then acc
          else
            let ratio := score.V / score.E
            if ratio < acc.2 then (lag, ratio) else acc) acc)).2 < acc.2) := by
  induction l with
  | nil => intro acc; exact Or.inl rfl
  | cons a l ih =>
    intro acc
    rw [List.foldl_cons]
    have hstep := searchStep_eq data acc a
    by_cases hE : (evaluatePeriod data a).E < 1e-9
    · rcases ih acc with h | h
      · rw [hstep, if_pos hE]
        exact Or.inl h
      · rw [hstep, if_pos hE]
        exact Or.inr ⟨List.mem_cons_of_mem a h.1, h.2.1, h.2.2.1, h.2.2.2⟩
    · by_cases hlt : (evaluatePeriod data a).V / (evaluatePeriod data a).E < acc.2
      · have hstep2 : (let score := evaluatePeriod data a
            if score.E < 1e-9 then acc
            else
              let ratio := score.V / score.E
              if ratio < acc.2 then (a, ratio) else acc)
            = (a, (evaluatePeriod data a).V / (evaluatePeriod data a).E) := by
          rw [hstep, if_neg hE, if_pos hlt]
        rw [hstep2]
        rcases ih (a, (evaluatePeriod data a).V / (evaluatePeriod data a).E) with h | h
        · rw [h]
          exact Or.inr ⟨List.mem_cons_self a l, not_lt.mp hE, rfl, hlt⟩
        · refine Or.inr ⟨List.mem_cons_of_mem a h.1, h.2.1, h.2.2.1, ?_⟩
          exact lt_trans h.2.2.2 hlt
      · have hstep2 : (let score := evaluatePeriod data a
            if score.E < 1e-9 then acc
            else
              let ratio := score.V / score.E
              if ratio < acc.2 then (a, ratio) else acc) = acc := by
          rw [hstep, if_neg hE, if_neg hlt]
        rw [hstep2]
        rcases ih acc with h | h
        · exact Or.inl h
        · exact Or.inr ⟨List.mem_cons_of_mem a h.1, h.2.1, h.2.2.1, h.2.2.2⟩

end PD

/-- C8: `PitchDetector::coarseSearch` tracks the first lag minimising
`V/E` over the coarse range (skipping degenerate-energy candidates); it
returns -1 whenever every non-degenerate candidate's ratio exceeds the
lenient 0.5 threshold; and when the search succeeds, the minimising lag is
returned unless its half is itself at least the minimum lag (the `< 120`
score-array bound always holds there) with non-degenerate energy and ratio
below 0.5, in which case the half lag is preferred. -/
theorem coarse_search_spec :
    ∀ (sampleRate minFreqHz maxFreqHz : ℝ) (data : List ℝ),
      ((∀ lag ∈ PD.lagRange (PD.coarseMinLag sampleRate maxFreqHz)
            (PD.coarseMaxLag sampleRate minFreqHz),
          1e-9 ≤ (PD.evaluatePeriod data lag).E →
          0.5 < (PD.evaluatePeriod data lag).V / (PD.evaluatePeriod data lag).E) →
        PD.coarseSearch sampleRate minFreqHz maxFreqHz data = -1) ∧
      (¬(PD.coarseMaxLag sampleRate minFreqHz ≤ PD.coarseMinLag sampleRate maxFreqHz ∨
          (data.length : ℤ) / 2 ≤ PD.coarseMaxLag sampleRate minFreqHz) →
        0 < (PD.searchBest data (PD.lagRange (PD.coarseMinLag sampleRate maxFreqHz)
              (PD.coarseMaxLag sampleRate minFreqHz))).1 →
        (PD.searchBest data (PD.lagRange (PD.coarseMinLag sampleRate maxFreqHz)
              (PD.coarseMaxLag sampleRate minFreqHz))).2 ≤ 0.5 →
        ((PD.searchBest data (PD.lagRange (PD.coarseMinLag sampleRate maxFreqHz)
              (PD.coarseMaxLag sampleRate minFreqHz))).1
            ∈ PD.lagRange (PD.coarseMinLag sampleRate maxFreqHz)
                (PD.coarseMaxLag sampleRate minFreqHz) ∧
          1e-9 ≤ (PD.evaluatePeriod data (PD.searchBest data
              (PD.lagRange (PD.coarseMinLag sampleRate maxFreqHz)
                (PD.coarseMaxLag sampleRate minFreqHz))).1).E ∧
          (PD.searchBest data (PD.lagRange (PD.coarseMinLag sampleRate maxFreqHz)
              (PD.coarseMaxLag sampleRate minFreqHz))).2
            = (PD.evaluatePeriod data (PD.searchBest data
                (PD.lagRange (PD.coarseMinLag sampleRate maxFreqHz)
                  (PD.coarseMaxLag sampleRate minFreqHz))).1).V
              / (PD.evaluatePeriod data (PD.searchBest data
                (PD.lagRange (PD.coarseMinLag sampleRate maxFreqHz)
                  (PD.coarseMaxLag sampleRate minFreqHz))).1).E ∧
          (∀ lag ∈ PD.lagRange (PD.coarseMinLag sampleRate maxFreqHz)
              (PD.coarseMaxLag sampleRate minFreqHz),
            1e-9 ≤ (PD.evaluatePeriod data lag).E →
            (PD.searchBest data (PD.lagRange (PD.coarseMinLag sampleRate maxFreqHz)
                (PD.coarseMaxLag sampleRate minFreqHz))).2
              ≤ (PD.evaluatePeriod data lag).V / (PD.evaluatePeriod data lag).E) ∧
          PD.coarseSearch sampleRate minFreqHz maxFreqHz data
            = (if PD.coarseMinLag sampleRate maxFreqHz
                  ≤ (PD.searchBest data (PD.lagRange (PD.coarseMinLag sampleRate maxFreqHz)
                      (PD.coarseMaxLag sampleRate minFreqHz))).1 / 2 ∧
                (PD.searchBest data (PD.lagRange (PD.coarseMinLag sampleRate maxFreqHz)
                    (PD.coarseMaxLag sampleRate minFreqHz))).1 / 2 < 120 ∧
                1e-9 < (PD.evaluatePeriod data ((PD.searchBest data
                    (PD.lagRange (PD.coarseMinLag sampleRate maxFreqHz)
                      (PD.coarseMaxLag sampleRate minFreqHz))).1 / 2)).E ∧
                (PD.evaluatePeriod data ((PD.searchBest data
                    (PD.lagRange (PD.coarseMinLag sampleRate maxFreqHz)
                      (PD.coarseMaxLag sampleRate minFreqHz))).1 / 2)).V
                  / (PD.evaluatePeriod data ((PD.searchBest data
                    (PD.lagRange (PD.coarseMinLag sampleRate maxFreqHz)
                      (PD.coarseMaxLag sampleRate minFreqHz))).1 / 2)).E < 0.5
              then (PD.searchBest data (PD.lagRange (PD.coarseMinLag sampleRate maxFreqHz)
                  (PD.coarseMaxLag sampleRate minFreqHz))).1 / 2
              else (PD.searchBest data (PD.lagRange (PD.coarseMinLag sampleRate maxFreqHz)
                  (PD.coarseMaxLag sampleRate minFreqHz))).1))) := by
  intro sampleRate minFreqHz maxFreqHz data
  set minLag := PD.coarseMinLag sampleRate maxFreqHz with hminLag
  set maxLag := PD.coarseMaxLag sampleRate minFreqHz with hmaxLag
  set lags := PD.lagRange minLag maxLag with hlags
  have hsb : PD.searchBest data lags
      = lags.foldl (fun (acc : ℤ × ℝ) lag =>
          let score := PD.evaluatePeriod data lag
          if score.E < 1e-9 then acc
          else
            let ratio := score.V / score.E
            if ratio < acc.2 then (lag, ratio) else acc) (-1, 1) := rfl
  have hcase : PD.searchBest data lags = (-1, 1) ∨
      ((PD.searchBest data lags).1 ∈ lags ∧
        1e-9 ≤ (PD.evaluatePeriod data (PD.searchBest data lags).1).E ∧
        (PD.searchBest data lags).2
          = (PD.evaluatePeriod data (PD.searchBest data lags).1).V
            / (PD.evaluatePeriod data (PD.searchBest data lags).1).E ∧
        (PD.searchBest data lags).2 < 1) := by
    rw [hsb]
    exact PD.searchFold_cases data lags (-1, 1)
  have hmin : ∀ lag ∈ lags, 1e-9 ≤ (PD.evaluatePeriod data lag).E →
      (PD.searchBest data lags).2
        ≤ (PD.evaluatePeriod data lag).V / (PD.evaluatePeriod data lag).E := by
    intro lag hm hE
    rw [hsb]
    exact PD.searchFold_min data lags (-1, 1) lag hm hE
  constructor
  · intro hall
    simp only [PD.coarseSearch]
    rw [← hminLag, ← hmaxLag]
    rw [← hlags]
    by_cases hg : maxLag ≤ minLag ∨ (data.length : ℤ) / 2 ≤ maxLag
    · rw [if_pos hg]
    · rw [if_neg hg]
      rcases hcase with h | h
      · rw [if_pos (Or.inl (show (PD.searchBest data lags).1 ≤ 0 by rw [h]; norm_num))]
      · rw [if_pos (Or.inr (by rw [h.2.2.1]; exact hall _ h.1 h.2.1))]
  · intro hg hpos hle
    rcases hcase with h | h
    · exfalso
      rw [h] at hpos
      exact absurd hpos (by norm_num)
    · refine ⟨h.1, h.2.1, h.2.2.1, hmin, ?_⟩
      simp only [PD.coarseSearch]
      rw [← hminLag, ← hmaxLag]
      rw [← hlags]
      rw [if_neg hg]
      rw [if_neg (by
        rintro (hc | hc)
        · omega
        · linarith)]
      by_cases h1 : minLag ≤ (PD.searchBest data lags).1 / 2 ∧
          (PD.searchBest data lags).1 / 2 < 120
      · rw [if_pos h1]
        by_cases h2 : 1e-9 < (PD.evaluatePeriod data ((PD.searchBest data lags).1 / 2)).E
        · rw [if_pos h2]
          by_cases h3 : (PD.evaluatePeriod data ((PD.searchBest data lags).1 / 2)).V
              / (PD.evaluatePeriod data ((PD.searchBest data lags).1 / 2)).E < 0.5
          · rw [if_pos h3, if_pos ⟨h1.1, h1.2, h2, h3⟩]
          · rw [if_neg h3, if_neg (by tauto)]
        · rw [if_neg h2, if_neg (by tauto)]
      · rw [if_neg h1, if_neg (by tauto)]

namespace PD

lemma foldl_keep {β : Type} (l : List β) (acc : ℝ × ℝ) :
    l.foldl (fun a _ => a) acc = acc := by
  induction l generalizing acc <;> simp [*]

lemma getD_replicate_zero (n i : ℕ) : (List.replicate n (0 : ℝ)).getD i 0 = 0 := by
  simp [List.getD]

lemma evaluatePeriod_allzero (data : List ℝ) (hz : ∀ i, data.getD i 0 = 0) (lag : ℤ) :
    evaluatePeriod data lag = { E := 0, H := 0, V := 0 } := by
  unfold evaluatePeriod
  dsimp only
  split
  · rfl
  · rw [List.foldl_ext _ (fun (a : ℝ × ℝ) _ => a) (0, 0) (by
      intro a b _
      dsimp only
      simp only [hz]
      simp)]
    rw [foldl_keep]
    show PeriodScore.mk 0 0 (0 - 2 * 0) = { E := 0, H := 0, V := 0 }
    norm_num

end PD

/-- C8 witness: the coarse-search specification applied to an all-zero
275-sample downsampled frame at the default configuration (44100 Hz,
80..800 Hz): every candidate has degenerate energy, so the threshold
hypothesis holds vacuously and the search returns -1. -/
theorem coarse_search_spec_witness :
    (∀ lag ∈ PD.lagRange (PD.coarseMinLag 44100 800) (PD.coarseMaxLag 44100 80),
      1e-9 ≤ (PD.evaluatePeriod (List.replicate 275 (0 : ℝ)) lag).E →
      0.5 < (PD.evaluatePeriod (List.replicate 275 (0 : ℝ)) lag).V
        / (PD.evaluatePeriod (List.replicate 275 (0 : ℝ)) lag).E) ∧
    PD.coarseSearch 44100 80 800 (List.replicate 275 (0 : ℝ)) = -1 := by
  have hz : ∀ lag ∈ PD.lagRange (PD.coarseMinLag 44100 800) (PD.coarseMaxLag 44100 80),
      1e-9 ≤ (PD.evaluatePeriod (List.replicate 275 (0 : ℝ)) lag).E →
      0.5 < (PD.evaluatePeriod (List.replicate 275 (0 : ℝ)) lag).V
        / (PD.evaluatePeriod (List.replicate 275 (0 : ℝ)) lag).E := by
    intro lag _ hE
    rw [PD.evaluatePeriod_allzero _ (fun i => PD.getD_replicate_zero 275 i) lag] at hE
    norm_num at hE
  exact ⟨hz, (coarse_search_spec 44100 80 800 (List.replicate 275 (0 : ℝ))).1 hz⟩

namespace PD

lemma coarseSearch_reject (sampleRate minFreqHz maxFreqHz : ℝ) (data : List ℝ)
    (h : ∀ lag ∈ lagRange (coarseMinLag sampleRate maxFreqHz)
        (coarseMaxLag sampleRate minFreqHz),
      1e-9 ≤ (evaluatePeriod data lag).E →
      (0.5 : ℝ) < (evaluatePeriod data lag).V / (evaluatePeriod data lag).E) :
    coarseSearch sampleRate minFreqHz maxFreqHz data = -1 := by
  set minLag := coarseMinLag sampleRate maxFreqHz with hminLag
  set maxLag := coarseMaxLag sampleRate minFreqHz with hmaxLag
  set lags := lagRange minLag maxLag with hlags
  have hsb : searchBest data lags
      = lags.foldl (fun (acc : ℤ × ℝ) lag =>
          let score := evaluatePeriod data lag
          if score.E < 1e-9 then acc
          else
            let ratio := score.V / score.E
            if ratio < acc.2 then (lag, ratio) else acc) (-1, 1) := rfl
  have hcase : searchBest data lags = (-1, 1) ∨
      ((searchBest data lags).1 ∈ lags ∧
        1e-9 ≤ (evaluatePeriod data (searchBest data lags).1).E ∧
        (searchBest data lags).2
          = (evaluatePeriod data (searchBest data lags).1).V
            / (evaluatePeriod data (searchBest data lags).1).E ∧
        (searchBest data lags).2 < 1) := by
    rw [hsb]
    exact searchFold_cases data lags (-1, 1)
  simp only [coarseSearch]
  rw [← hminLag, ← hmaxLag]
  rw [← hlags]
  by_cases hg : maxLag ≤ minLag ∨ (data.length : ℤ) / 2 ≤ maxLag
  · rw [if_pos hg]
  · rw [if_neg hg]
    rcases hcase with hc | hc
    · rw [if_pos (Or.inl (show (searchBest data lags).1 ≤ 0 by rw [hc]; norm_num))]
    · rw [if_pos (Or.inr (show (0.5 : ℝ) < (searchBest data lags).2 by
        rw [hc.2.2.1]
        exact h _ hc.1 hc.2.1))]

lemma fineSearch_all_failed (epsilon : ℝ) (data : List ℝ) (coarseLag : ℤ)
    (fineScores : List PeriodScore)
    (h : ∀ lag ∈ lagRange (max 2 (coarseLag - 8 * 3))
        (min ((data.length : ℤ) / 2 - 1) (coarseLag + 8 * 3)),
      1e-9 ≤ (evaluatePeriod data lag).E →
      epsilon < (evaluatePeriod data lag).V / (evaluatePeriod data lag).E) :
    (fineSearch epsilon data coarseLag fineScores).1 = -1 := by
  set minLag := max 2 (coarseLag - 8 * 3) with hminLag
  set maxLag := min ((data.length : ℤ) / 2 - 1) (coarseLag + 8 * 3) with hmaxLag
  set lags := lagRange minLag maxLag with hlags
  have hsb : searchBest data lags
      = lags.foldl (fun (acc : ℤ × ℝ) lag =>
          let score := evaluatePeriod data lag
          if score.E < 1e-9 then acc
          else
            let ratio := score.V / score.E
            if ratio < acc.2 then (lag, ratio) else acc) (-1, 1) := rfl
  have hcase : searchBest data lags = (-1, 1) ∨
      ((searchBest data lags).1 ∈ lags ∧
        1e-9 ≤ (evaluatePeriod data (searchBest data lags).1).E ∧
        (searchBest data lags).2
          = (evaluatePeriod data (searchBest data lags).1).V
            / (evaluatePeriod data (searchBest data lags).1).E ∧
        (searchBest data lags).2 < 1) := by
    rw [hsb]
    exact searchFold_cases data lags (-1, 1)
  simp only [fineSearch]
  rw [← hminLag, ← hmaxLag]
  rw [← hlags]
  by_cases hg : maxLag ≤ minLag
  · rw [if_pos hg]
  · rw [if_neg hg]
    rcases hcase with hc | hc
    · rw [if_pos (Or.inl (show (searchBest data lags).1 ≤ 0 by rw [hc]; norm_num))]
    · rw [if_pos (Or.inr (show epsilon < (searchBest data lags).2 by
        rw [hc.2.2.1]
        exact h _ hc.1 hc.2.1))]

end PD

lemma all_zero_getD {l : List ℝ} (h : ∀ x ∈ l, x = 0) (i : ℕ) : l.getD i 0 = 0 := by
  rcases lt_or_le i l.length with hi | hi
  · rw [List.getD_eq_getElem l 0 hi]
    exact h _ (List.getElem_mem hi)
  · exact List.getD_eq_default l 0 hi

lemma writeInput_all_zero (input : List ℝ) (hin : ∀ x ∈ input, x = 0) :
    ∀ (buf : List ℝ) (pos : ℤ), (∀ x ∈ buf, x = 0) →
      ∀ y ∈ (writeInput buf pos input).1, y = 0 := by
  induction input with
  | nil => exact fun buf pos hb y hy => hb y hy
  | cons a l ih =>
    intro buf pos hb y hy
    have ha : a = 0 := hin a (List.mem_cons_self a l)
    have hb' : ∀ x ∈ buf.set pos.toNat a, x = 0 := by
      intro x hx
      rcases List.mem_or_eq_of_mem_set hx with hx' | rfl
      · exact hb x hx'
      · exact ha
    have hin' : ∀ x ∈ l, x = 0 := fun x hx => hin x (List.mem_cons_of_mem a hx)
    have hstep : writeInput buf pos (a :: l)
        = writeInput (buf.set pos.toNat a) ((pos + 1) % (buf.length : ℤ)) l := by
      simp only [writeInput, List.foldl_cons]
    rw [hstep] at hy
    exact ih hin' _ _ hb' y hy

lemma sub_mean_all_zero (l : List ℝ) (c : ℝ) (h : ∀ x ∈ l, x = 0) :
    ∀ y ∈ l.map (fun s => s - l.sum / c), y = 0 := by
  intro y hy
  obtain ⟨s, hs, rfl⟩ := List.mem_map.mp hy
  rw [h s hs, List.sum_eq_zero h, zero_div, sub_zero]

lemma map_getD_all_zero (buf : List ℝ) (h : ∀ x ∈ buf, x = 0) (f : ℕ → ℕ) (n : ℕ) :
    ∀ x ∈ (List.range n).map (fun (i : ℕ) => buf.getD (f i) 0), x = 0 := by
  intro x hx
  obtain ⟨i, hi, rfl⟩ := List.mem_map.mp hx
  exact all_zero_getD h _

namespace PD

lemma foldl_keepR {β : Type} (l : List β) (acc : ℝ) :
    l.foldl (fun a _ => a) acc = acc := by
  induction l generalizing acc <;> simp [*]

lemma extractFrame_all_zero (st : DState) (h : ∀ x ∈ st.inputBuffer, x = 0) :
    ∀ y ∈ extractFrame st, y = 0 := by
  intro y hy
  unfold extractFrame at hy
  dsimp only at hy
  exact sub_mean_all_zero _ _ (map_getD_all_zero st.inputBuffer h _ _) y hy

lemma downsample_all_zero (input : List ℝ) (h : ∀ x ∈ input, x = 0) :
    ∀ y ∈ downsample input, y = 0 := by
  intro y hy
  unfold downsample at hy
  dsimp only at hy
  obtain ⟨n, hn, rfl⟩ := List.mem_map.mp hy
  rw [List.foldl_ext _ (fun (a : ℝ) (_ : ℕ) => a) 0 (by
    intro a k _
    dsimp only
    rw [all_zero_getD h]
    simp)]
  exact foldl_keepR _ 0

end PD

/-- C7: `PitchDetector::process` returns the empty/unvoiced result
(frequency 0, period 0, confidence 0, voiced = false) (i) whenever every
candidate lag of the coarse search has degenerate (below 1e-9) energy and
is therefore skipped, (ii) whenever no candidate passes the coarse (0.5)
periodicity threshold or no fine candidate passes the configured `epsilon`
threshold, and (iii) whenever the refined frequency falls outside the
configured `[minFreqHz, maxFreqHz]` band. -/
theorem detector_unvoiced_empty (st : PD.DState) (input : List ℝ) :
    ((∀ lag ∈ PD.lagRange
          (PD.coarseMinLag (PD.writeState st input).sampleRate
            (PD.writeState st input).maxFreqHz)
          (PD.coarseMaxLag (PD.writeState st input).sampleRate
            (PD.writeState st input).minFreqHz),
        (PD.evaluatePeriod
          (PD.downsample (PD.extractFrame (PD.writeState st input))) lag).E < 1e-9) →
      (PD.process st input).1
        = { frequency := 0, period := 0, confidence := 0, voiced := false }) ∧
    (((∀ lag ∈ PD.lagRange
          (PD.coarseMinLag (PD.writeState st input).sampleRate
            (PD.writeState st input).maxFreqHz)
          (PD.coarseMaxLag (PD.writeState st input).sampleRate
            (PD.writeState st input).minFreqHz),
        1e-9 ≤ (PD.evaluatePeriod
          (PD.downsample (PD.extractFrame (PD.writeState st input))) lag).E →
        (0.5 : ℝ) < (PD.evaluatePeriod
            (PD.downsample (PD.extractFrame (PD.writeState st input))) lag).V
          / (PD.evaluatePeriod
            (PD.downsample (PD.extractFrame (PD.writeState st input))) lag).E) ∨
      (∀ lag ∈ PD.lagRange
          (max 2 (PD.coarseSearch (PD.writeState st input).sampleRate
              (PD.writeState st input).minFreqHz (PD.writeState st input).maxFreqHz
              (PD.downsample (PD.extractFrame (PD.writeState st input))) * 8 - 8 * 3))
          (min (((PD.extractFrame (PD.writeState st input)).length : ℤ) / 2 - 1)
            (PD.coarseSearch (PD.writeState st input).sampleRate
              (PD.writeState st input).minFreqHz (PD.writeState st input).maxFreqHz
              (PD.downsample (PD.extractFrame (PD.writeState st input))) * 8 + 8 * 3)),
        1e-9 ≤ (PD.evaluatePeriod (PD.extractFrame (PD.writeState st input)) lag).E →
        (PD.writeState st input).epsilon
          < (PD.evaluatePeriod (PD.extractFrame (PD.writeState st input)) lag).V
            / (PD.evaluatePeriod (PD.extractFrame (PD.writeState st input)) lag).E)) →
      (PD.process st input).1
        = { frequency := 0, period := 0, confidence := 0, voiced := false }) ∧
    (((PD.writeState st input).sampleRate
          / (PD.fineSearch (PD.writeState st input).epsilon
              (PD.extractFrame (PD.writeState st input))
              (PD.coarseSearch (PD.writeState st input).sampleRate
                (PD.writeState st input).minFreqHz (PD.writeState st input).maxFreqHz
                (PD.downsample (PD.extractFrame (PD.writeState st input))) * 8)
              (PD.writeState st input).fineScores).1
        < (PD.writeState st input).minFreqHz ∨
      (PD.writeState st input).maxFreqHz
        < (PD.writeState st input).sampleRate
          / (PD.fineSearch (PD.writeState st input).epsilon
              (PD.extractFrame (PD.writeState st input))
              (PD.coarseSearch (PD.writeState st input).sampleRate
                (PD.writeState st input).minFreqHz (PD.writeState st input).maxFreqHz
                (PD.downsample (PD.extractFrame (PD.writeState st input))) * 8)
              (PD.writeState st input).fineScores).1) →
      (PD.process st input).1
        = { frequency := 0, period := 0, confidence := 0, voiced := false }) := by
  by_cases he : input.length = 0
  · exact ⟨fun _ => by simp only [PD.process]; rw [if_pos he],
      fun _ => by simp only [PD.process]; rw [if_pos he],
      fun _ => by simp only [PD.process]; rw [if_pos he]⟩
  · refine ⟨?_, ?_, ?_⟩
    · intro h1
      have hc : PD.coarseSearch (PD.writeState st input).sampleRate
          (PD.writeState st input).minFreqHz (PD.writeState st input).maxFreqHz
          (PD.downsample (PD.extractFrame (PD.writeState st input))) = -1 :=
        PD.coarseSearch_reject _ _ _ _ (fun lag hm hE =>
          absurd hE (not_le.mpr (h1 lag hm)))
      simp only [PD.process]
      rw [if_neg he, hc, if_pos (show (-1 : ℤ) ≤ 0 by norm_num)]
    · intro h2
      rcases h2 with h2 | h2
      · have hc : PD.coarseSearch (PD.writeState st input).sampleRate
            (PD.writeState st input).minFreqHz (PD.writeState st input).maxFreqHz
            (PD.downsample (PD.extractFrame (PD.writeState st input))) = -1 :=
          PD.coarseSearch_reject _ _ _ _ h2
        simp only [PD.process]
        rw [if_neg he, hc, if_pos (show (-1 : ℤ) ≤ 0 by norm_num)]
      · by_cases hcl : PD.coarseSearch (PD.writeState st input).sampleRate
            (PD.writeState st input).minFreqHz (PD.writeState st input).maxFreqHz
            (PD.downsample (PD.extractFrame (PD.writeState st input))) ≤ 0
        · simp only [PD.process]
          rw [if_neg he, if_pos hcl]
        · have hf : (PD.fineSearch (PD.writeState st input).epsilon
              (PD.extractFrame (PD.writeState st input))
              (PD.coarseSearch (PD.writeState st input).sampleRate
                (PD.writeState st input).minFreqHz (PD.writeState st input).maxFreqHz
                (PD.downsample (PD.extractFrame (PD.writeState st input))) * 8)
              (PD.writeState st input).fineScores).1 = -1 :=
            PD.fineSearch_all_failed _ _ _ _ h2
          simp only [PD.process]
          rw [if_neg he, if_neg hcl, hf, if_pos (show (-1 : ℝ) ≤ 0 by norm_num)]
    · intro h3
      by_cases hcl : PD.coarseSearch (PD.writeState st input).sampleRate
          (PD.writeState st input).minFreqHz (PD.writeState st input).maxFreqHz
          (PD.downsample (PD.extractFrame (PD.writeState st input))) ≤ 0
      · simp only [PD.process]
        rw [if_neg he, if_pos hcl]
      · by_cases hrp : (PD.fineSearch (PD.writeState st input).epsilon
            (PD.extractFrame (PD.writeState st input))
            (PD.coarseSearch (PD.writeState st input).sampleRate
              (PD.writeState st input).minFreqHz (PD.writeState st input).maxFreqHz
              (PD.downsample (PD.extractFrame (PD.writeState st input))) * 8)
            (PD.writeState st input).fineScores).1 ≤ 0
        · simp only [PD.process]
          rw [if_neg he, if_neg hcl, if_pos hrp]
        · simp only [PD.process]
          rw [if_neg he, if_neg hcl, if_neg hrp]
          dsimp only
          rw [if_pos h3]

/-- C7 witness: the freshly prepared default detector (44100 Hz, 80..800 Hz)
fed an all-zero 8-sample block has an all-zero analysis frame, so every
coarse candidate lag has zero (degenerate) energy and `process` returns the
all-zero unvoiced result. -/
theorem detector_unvoiced_empty_witness :
    (∀ lag ∈ PD.lagRange
        (PD.coarseMinLag
          (PD.writeState (PD.prepare PD.initState 44100)
            (List.replicate 8 (0 : ℝ))).sampleRate
          (PD.writeState (PD.prepare PD.initState 44100)
            (List.replicate 8 (0 : ℝ))).maxFreqHz)
        (PD.coarseMaxLag
          (PD.writeState (PD.prepare PD.initState 44100)
            (List.replicate 8 (0 : ℝ))).sampleRate
          (PD.writeState (PD.prepare PD.initState 44100)
            (List.replicate 8 (0 : ℝ))).minFreqHz),
      (PD.evaluatePeriod
        (PD.downsample (PD.extractFrame
          (PD.writeState (PD.prepare PD.initState 44100)
            (List.replicate 8 (0 : ℝ))))) lag).E < 1e-9) ∧
    (PD.process (PD.prepare PD.initState 44100) (List.replicate 8 (0 : ℝ))).1
      = { frequency := 0, period := 0, confidence := 0, voiced := false } := by
  have hbuf : ∀ x ∈ (PD.writeState (PD.prepare PD.initState 44100)
      (List.replicate 8 (0 : ℝ))).inputBuffer, x = 0 := by
    intro x hx
    exact writeInput_all_zero (List.replicate 8 (0 : ℝ))
      (fun z hz => List.eq_of_mem_replicate hz) _ _
      (fun z hz => List.eq_of_mem_replicate hz) x hx
  have hframe := PD.extractFrame_all_zero _ hbuf
  have hds := PD.downsample_all_zero _ hframe
  have hgd : ∀ i, (PD.downsample (PD.extractFrame
      (PD.writeState (PD.prepare PD.initState 44100)
        (List.replicate 8 (0 : ℝ))))).getD i 0 = 0 := fun i => all_zero_getD hds i
  constructor
  · intro lag _
    rw [PD.evaluatePeriod_allzero _ hgd lag]
    norm_num
  · refine (detector_unvoiced_empty (PD.prepare PD.initState 44100)
      (List.replicate 8 (0 : ℝ))).1 ?_
    intro lag _
    rw [PD.evaluatePeriod_allzero _ hgd lag]
    norm_num
